import Mathlib

/-!
Verification development for the NeuroNap sleep-analysis core
(`backend.py`, `ml.py`).  The Python functions are shallowly embedded as
executable Lean definitions over `ℚ` (Python float arithmetic on the
minute/second grid used by the program is exact well within the rounding
granularity involved, so rational arithmetic is a faithful model), and the
specification claims are settled as theorems about those definitions.
-/

/-! ### Python `round` (banker's rounding) -/

/-- Round a rational to the nearest integer, ties to even, as Python's
builtin `round` does. -/
def pyRoundInt (q : ℚ) : ℤ :=
  if q - ⌊q⌋ < 1/2 then ⌊q⌋
  else if 1/2 < q - ⌊q⌋ then ⌊q⌋ + 1
  else if Even ⌊q⌋ then ⌊q⌋ else ⌊q⌋ + 1

/-- Python `round(q, 2)`. -/
def pyRound2 (q : ℚ) : ℚ := (pyRoundInt (q * 100) : ℚ) / 100

/-- Python `round(q, 1)`. -/
def pyRound1 (q : ℚ) : ℚ := (pyRoundInt (q * 10) : ℚ) / 10

theorem pyRoundInt_intCast (n : ℤ) : pyRoundInt (n : ℚ) = n := by
  unfold pyRoundInt
  norm_num

theorem pyRoundInt_nonneg (q : ℚ) (h : 0 ≤ q) : 0 ≤ pyRoundInt q := by
  unfold pyRoundInt
  have h0 : (0 : ℤ) ≤ ⌊q⌋ := by positivity
  split <;> [omega; skip]
  split <;> [omega; skip]
  split <;> omega

theorem pyRoundInt_le_of_le (q : ℚ) (n : ℤ) (h : q ≤ n) : pyRoundInt q ≤ n := by
  unfold pyRoundInt
  have hf : ⌊q⌋ ≤ n := by
    have h1 : ⌊q⌋ ≤ ⌊(n : ℚ)⌋ := Int.floor_mono h
    simpa using h1
  have hfl : (⌊q⌋ : ℚ) ≤ q := Int.floor_le q
  split
  · exact hf
  · split
    · rename_i h1 h2
      by_contra hc
      push_neg at hc
      have hfn : ⌊q⌋ = n := by omega
      rw [hfn] at h2
      linarith
    · rename_i h1 h2
      push_neg at h1 h2
      have hq : q - ⌊q⌋ = 1/2 := le_antisymm h2 h1
      split
      · exact hf
      · by_contra hc
        push_neg at hc
        have hfn : ⌊q⌋ = n := by omega
        rw [hfn] at hq
        have hqn : q = (n : ℚ) + 1/2 := by linarith
        rw [hqn] at h
        norm_num at h

theorem pyRound2_nonneg (q : ℚ) (h : 0 ≤ q) : 0 ≤ pyRound2 q := by
  unfold pyRound2
  have := pyRoundInt_nonneg (q * 100) (by positivity)
  positivity

theorem pyRound2_le (q : ℚ) (n : ℤ) (h : q ≤ n) : pyRound2 q ≤ n := by
  unfold pyRound2
  have h1 : q * 100 ≤ ((n * 100 : ℤ) : ℚ) := by push_cast; linarith
  have h2 := pyRoundInt_le_of_le (q * 100) (n * 100) h1
  rw [div_le_iff₀ (by norm_num)]
  exact_mod_cast h2

theorem pyRound2_zero : pyRound2 0 = 0 := by
  unfold pyRound2
  rw [show (0 : ℚ) * 100 = ((0 : ℤ) : ℚ) by norm_num, pyRoundInt_intCast]
  norm_num

/-- `pyRound2` is the identity on exact multiples of `1/100`; in
particular it is idempotent. -/
theorem pyRound2_idem (q : ℚ) : pyRound2 (pyRound2 q) = pyRound2 q := by
  unfold pyRound2
  rw [div_mul_cancel₀ _ (by norm_num : (100 : ℚ) ≠ 0), pyRoundInt_intCast]

theorem pyRound1_intCast (n : ℤ) : pyRound1 (n : ℚ) = n := by
  unfold pyRound1
  have : ((n : ℚ)) * 10 = ((n * 10 : ℤ) : ℚ) := by push_cast; ring
  rw [this, pyRoundInt_intCast]
  push_cast
  ring

/-! ### `datetime.strptime(s, "%H:%M")`

Python's `_strptime` compiles `"%H:%M"` to the regex
`(2[0-3]|[0-1]\d|\d):([0-5]\d|\d)` and requires the whole input to be
consumed.  Note a 2-digit field is preferred, with backtracking to the
1-digit alternative.  Failure raises `ValueError`, modelled by `none`. -/

/-- Test for an ASCII digit. -/
def isDig (c : Char) : Bool := 48 ≤ c.toNat && c.toNat ≤ 57

/-- Numeric value of an ASCII digit character. -/
def dval (c : Char) : ℕ := c.toNat - 48

/-- Parse the minute field `([0-5]\d|\d)`, which has to consume the whole
remaining input. -/
def parseMin : List Char → Option ℕ
  | [c1, c2] => if isDig c1 && isDig c2 && dval c1 ≤ 5 then some (10 * dval c1 + dval c2) else none
  | [c] => if isDig c then some (dval c) else none
  | _ => none

/-- Parse a `"%H:%M"` character list exactly as `datetime.strptime`
accepts it; returns `(hour, minute)`. -/
def parseHHMMList : List Char → Option (ℕ × ℕ)
  | a :: b :: rest =>
    if isDig a && isDig b && (dval a ≤ 1 || (dval a == 2 && dval b ≤ 3)) then
      -- 2-digit hour matched; a colon must follow (backtracking to a
      -- 1-digit hour is impossible since `b` is then a digit, not a colon)
      match rest with
      | ':' :: mrest => (parseMin mrest).map (fun m => (10 * dval a + dval b, m))
      | _ => none
    else if isDig a && b == ':' then
      (parseMin rest).map (fun m => (dval a, m))
    else none
  | _ => none

/-- Parse a `"%H:%M"` time string exactly as `datetime.strptime` accepts
it; `none` models the `ValueError` raised on malformed input. -/
def parseHHMM (s : String) : Option (ℕ × ℕ) := parseHHMMList s.data

theorem dval_le_of_isDig (c : Char) (h : isDig c = true) : dval c ≤ 9 := by
  unfold isDig at h
  simp only [Bool.and_eq_true, decide_eq_true_eq] at h
  unfold dval
  omega

theorem parseMin_lt (l : List Char) (m : ℕ) (h : parseMin l = some m) : m < 60 := by
  unfold parseMin at h
  split at h
  · rename_i c1 c2
    split at h
    · rename_i hc
      simp only [Bool.and_eq_true, decide_eq_true_eq] at hc
      have h2 := dval_le_of_isDig c2 hc.1.2
      simp only [Option.some.injEq] at h
      omega
    · exact absurd h (by simp)
  · rename_i c
    split at h
    · rename_i hc
      simp only [Option.some.injEq] at h
      have := dval_le_of_isDig c hc
      omega
    · exact absurd h (by simp)
  · exact absurd h (by simp)

theorem parseHHMMList_bounds (l : List Char) (h m : ℕ)
    (hp : parseHHMMList l = some (h, m)) : h < 24 ∧ m < 60 := by
  unfold parseHHMMList at hp
  split at hp
  · rename_i a b rest
    split at hp
    · rename_i hc
      simp only [Bool.and_eq_true, Bool.or_eq_true, decide_eq_true_eq, beq_iff_eq] at hc
      have hb := dval_le_of_isDig b hc.1.2
      split at hp
      · simp only [Option.map_eq_some'] at hp
        obtain ⟨mv, hmv, heq⟩ := hp
        have := parseMin_lt _ _ hmv
        simp only [Prod.mk.injEq] at heq
        obtain ⟨hh, hm⟩ := heq
        rcases hc.2 with h1 | ⟨h1, h2⟩ <;> omega
      · exact absurd hp (by simp)
    · split at hp
      · rename_i hc2
        simp only [Bool.and_eq_true, decide_eq_true_eq, beq_iff_eq] at hc2
        simp only [Option.map_eq_some'] at hp
        obtain ⟨mv, hmv, heq⟩ := hp
        have := parseMin_lt _ _ hmv
        simp only [Prod.mk.injEq] at heq
        obtain ⟨hh, hm⟩ := heq
        have := dval_le_of_isDig a hc2.1
        omega
      · exact absurd hp (by simp)
  · exact absurd hp (by simp)

theorem parseHHMM_bounds (s : String) (h m : ℕ) (hp : parseHHMM s = some (h, m)) :
    h < 24 ∧ m < 60 :=
  parseHHMMList_bounds s.data h m hp

/-! ### Formatting `strftime("%H:%M")` -/

/-- Character of a decimal digit. -/
def digitChar (d : ℕ) : Char := Char.ofNat (48 + d)

/-- Zero padded `"%H:%M"` rendering of a time given in minutes past
midnight. -/
def fmtHHMM (k : ℕ) : String :=
  String.mk [digitChar (k / 60 / 10), digitChar (k / 60 % 10), ':',
             digitChar (k % 60 / 10), digitChar (k % 60 % 10)]

theorem isDig_digitChar (d : ℕ) (h : d < 10) : isDig (digitChar d) = true := by
  interval_cases d <;> decide

theorem dval_digitChar (d : ℕ) (h : d < 10) : dval (digitChar d) = d := by
  interval_cases d <;> decide

/-- Round trip: formatting a valid time and re-parsing it recovers the
hour and minute. -/
theorem parseHHMM_fmtHHMM (k : ℕ) (hk : k < 1440) :
    parseHHMM (fmtHHMM k) = some (k / 60, k % 60) := by
  have h1 : k / 60 / 10 < 10 := by omega
  have h2 : k / 60 % 10 < 10 := by omega
  have h3 : k % 60 / 10 < 10 := by omega
  have h4 : k % 60 % 10 < 10 := by omega
  have hdata : (fmtHHMM k).data =
      [digitChar (k / 60 / 10), digitChar (k / 60 % 10), ':',
       digitChar (k % 60 / 10), digitChar (k % 60 % 10)] := rfl
  unfold parseHHMM
  rw [hdata]
  simp only [parseHHMMList, parseMin]
  rw [isDig_digitChar _ h1, isDig_digitChar _ h2, isDig_digitChar _ h3, isDig_digitChar _ h4,
      dval_digitChar _ h1, dval_digitChar _ h2, dval_digitChar _ h3, dval_digitChar _ h4]
  have hc1 : (true && true && (decide (k / 60 / 10 ≤ 1) ||
      (k / 60 / 10 == 2 && decide (k / 60 % 10 ≤ 3)))) = true := by
    simp only [Bool.true_and, Bool.or_eq_true, Bool.and_eq_true, decide_eq_true_eq, beq_iff_eq]
    omega
  have hc2 : (true && true && decide (k % 60 / 10 ≤ 5)) = true := by
    simp only [Bool.true_and, Bool.and_true, decide_eq_true_eq]
    omega
  rw [hc1, hc2]
  simp only [if_true, Option.map_some', Option.some.injEq, Prod.mk.injEq]
  constructor <;> omega

/-! ### `calculate_sleep_debt` (backend.py lines 19-34) -/

/-- Absolute minute count of the wake datetime after the overnight
adjustment `if wake_dt < sleep_dt: wake_dt += timedelta(days=1)`. -/
def wakeAbs (sMin wMin : ℕ) : ℕ := if wMin < sMin then wMin + 1440 else wMin

/-- Sleep duration in minutes, `(wake_dt - sleep_dt).seconds / 60`. -/
def durationMin (sMin wMin : ℕ) : ℕ := wakeAbs sMin wMin - sMin

/-- Embedding of `calculate_sleep_debt`: parse both times, adjust for
overnight sleep, and return `round(max(8 - duration, 0), 2)`. -/
def calculate_sleep_debt (sleep_time wake_time : String) : Option ℚ :=
  match parseHHMM sleep_time, parseHHMM wake_time with
  | some (h1, m1), some (h2, m2) =>
    let sMin := 60 * h1 + m1
    let wMin := 60 * h2 + m2
    let duration : ℚ := (durationMin sMin wMin : ℚ) * 60 / 3600
    some (pyRound2 (max (8 - duration) 0))
  | _, _ => none

theorem durationMin_eq_emod (sMin wMin : ℕ) (hs : sMin < 1440) (hw : wMin < 1440) :
    (durationMin sMin wMin : ℤ) = ((wMin : ℤ) - (sMin : ℤ)) % 1440 := by
  unfold durationMin wakeAbs
  split <;> omega

/-! ### `calculate_circadian_rhythm` (backend.py lines 36-83)

The energy curve is built with `scipy.interpolate.interp1d(..., kind="cubic")`,
which constructs the (unique) not-a-knot cubic spline through the control
points.  The spline is computed here over `ℚ` by the classical
second-derivative formulation: the `n-2` interior continuity equations,
with the two not-a-knot end conditions substituted in, give a tridiagonal
system solved by the Thomas algorithm (strict diagonal dominance of the
reduced system makes every pivot nonzero). -/

/-- Python float `x % 24` for the nonnegative hour values involved. -/
def qmod24 (x : ℚ) : ℚ := x - 24 * (⌊x / 24⌋ : ℚ)

/-- Value of `dt.hour + dt.minute / 60` for a clock time of `k` minutes. -/
def clockHour (k : ℕ) : ℚ := ((k / 60 : ℕ) : ℚ) + ((k % 60 : ℕ) : ℚ) / 60

/-- Insert into a strictly sorted list, dropping duplicates. -/
def insertSD (x : ℚ) : List ℚ → List ℚ
  | [] => [x]
  | y :: ys => if x < y then x :: y :: ys else if x = y then y :: ys else y :: insertSD x ys

/-- The Python `sorted(set(l))`: strictly ascending list of the distinct
elements. -/
def sortedDedup (l : List ℚ) : List ℚ := l.foldr insertSD []

/-- Python `l.index(x)`: index of the first occurrence. -/
def idxOf (x : ℚ) : List ℚ → ℕ
  | [] => 0
  | y :: ys => if x = y then 0 else idxOf x ys + 1

/-- Consecutive differences of a knot list. -/
def diffs (l : List ℚ) : List ℚ := (l.zip l.tail).map (fun p => p.2 - p.1)

/-- Sliding windows of three consecutive elements. -/
def windows3 (l : List ℚ) : List (ℚ × ℚ × ℚ) := l.zip (l.tail.zip l.tail.tail)

/-- One interior continuity equation of the cubic spline system, as
`((a, b, c), d)` meaning `a*M[i-1] + b*M[i] + c*M[i+1] = d`. -/
def splineRow : (ℚ × ℚ × ℚ) × (ℚ × ℚ × ℚ) → (ℚ × ℚ × ℚ) × ℚ
  | ((x0, x1, x2), (y0, y1, y2)) =>
    (((x1 - x0) / 6, ((x1 - x0) + (x2 - x1)) / 3, (x2 - x1) / 6),
     (y2 - y1) / (x2 - x1) - (y1 - y0) / (x1 - x0))

/-- All interior continuity equations for knots `xs` and values `ys`. -/
def interiorRows (xs ys : List ℚ) : List ((ℚ × ℚ × ℚ) × ℚ) :=
  ((windows3 xs).zip (windows3 ys)).map splineRow

/-- Substitute the left not-a-knot condition
`M0 = (1+r0)*M1 - r0*M2` into the first interior equation. -/
def adjustFirst (r0 : ℚ) : List ((ℚ × ℚ × ℚ) × ℚ) → List ((ℚ × ℚ × ℚ) × ℚ)
  | ((a, b, c), d) :: rest => ((0, b + a * (1 + r0), c - a * r0), d) :: rest
  | [] => []

/-- Substitute the right not-a-knot condition into the last interior
equation. -/
def adjustLast (r1 : ℚ) : List ((ℚ × ℚ × ℚ) × ℚ) → List ((ℚ × ℚ × ℚ) × ℚ)
  | [((a, b, c), d)] => [((a - c * r1, b + c * (1 + r1), 0), d)]
  | row :: rest => row :: adjustLast r1 rest
  | [] => []

/-- Forward sweep of the Thomas algorithm; `cp`/`dp` carry the previous
modified coefficients. -/
def thomasFwd (cp dp : ℚ) : List ((ℚ × ℚ × ℚ) × ℚ) → List (ℚ × ℚ)
  | [] => []
  | ((a, b, c), d) :: rest =>
    (c / (b - a * cp), (d - a * dp) / (b - a * cp)) ::
      thomasFwd (c / (b - a * cp)) ((d - a * dp) / (b - a * cp)) rest

/-- Back substitution over the reversed forward-sweep output. -/
def thomasBackRev (xnext : ℚ) : List (ℚ × ℚ) → List ℚ
  | [] => []
  | (cp, dp) :: rest => (dp - cp * xnext) :: thomasBackRev (dp - cp * xnext) rest

/-- Solve a tridiagonal system given as rows `((a, b, c), d)`. -/
def triSolve (rows : List ((ℚ × ℚ × ℚ) × ℚ)) : List ℚ :=
  (thomasBackRev 0 ((thomasFwd 0 0 rows).reverse)).reverse

/-- Ratio `h0/h1` of the first two knot gaps. -/
def ratioFirst (xs : List ℚ) : ℚ :=
  match diffs xs with
  | h0 :: h1 :: _ => h0 / h1
  | _ => 0

/-- Ratio `h[n-2]/h[n-3]` of the last two knot gaps. -/
def ratioLast (xs : List ℚ) : ℚ :=
  match (diffs xs).reverse with
  | hl :: hl1 :: _ => hl / hl1
  | _ => 0

/-- Second derivatives `M0..M[n-1]` of the not-a-knot cubic spline
through `(xs, ys)`. -/
def notAKnotM (xs ys : List ℚ) : List ℚ :=
  let r0 := ratioFirst xs
  let r1 := ratioLast xs
  let inner := triSolve (adjustLast r1 (adjustFirst r0 (interiorRows xs ys)))
  let m0 := match inner with
    | m1 :: m2 :: _ => (1 + r0) * m1 - r0 * m2
    | _ => 0
  let mN := match inner.reverse with
    | mk :: mk1 :: _ => (1 + r1) * mk - r1 * mk1
    | _ => 0
  m0 :: inner ++ [mN]

/-- Evaluate the piecewise cubic with knot/value/second-derivative
triples `pts` at `t` (for `t` within the knot range). -/
def evalSpline : List (ℚ × ℚ × ℚ) → ℚ → ℚ
  | (x0, y0, m0) :: (x1, y1, m1) :: rest, t =>
    if t ≤ x1 ∨ rest = [] then
      m0 * (x1 - t) ^ 3 / (6 * (x1 - x0)) + m1 * (t - x0) ^ 3 / (6 * (x1 - x0)) +
        (y0 - m0 * (x1 - x0) ^ 2 / 6) * ((x1 - t) / (x1 - x0)) +
        (y1 - m1 * (x1 - x0) ^ 2 / 6) * ((t - x0) / (x1 - x0))
    else evalSpline ((x1, y1, m1) :: rest) t
  | _, _ => 0

/-- Zip knots, values and second derivatives into evaluation triples. -/
def zip3Q (xs ys ms : List ℚ) : List (ℚ × ℚ × ℚ) := xs.zip (ys.zip ms)

/-- The clamp `np.clip(•, 0, 10)` applied to one sample. -/
def clip (x : ℚ) : ℚ := min (max x 0) 10

/-- The sample grid `np.linspace(0, 24, 100)`. -/
def linspace100 : List ℚ := (List.range 100).map (fun j => 24 * (j : ℚ) / 99)

/-- Wake hour `wake_dt.hour + wake_dt.minute / 60` (a clock value even
after the overnight `+1 day` adjustment). -/
def wakeHourVal (sMin wMin : ℕ) : ℚ := clockHour (wakeAbs sMin wMin % 1440)

/-- The `sleep_hour` of backend.py line 60: the raw clock hour if
`sleep_dt > wake_dt`, else the clock hour plus 24. -/
def sleepHourVal (sMin wMin : ℕ) : ℚ :=
  if wakeAbs sMin wMin < sMin then clockHour sMin else clockHour sMin + 24

/-- The `key_hours` list of backend.py line 61. -/
def key_hours (sMin wMin : ℕ) : List ℚ :=
  [0, wakeHourVal sMin wMin, qmod24 (wakeHourVal sMin wMin + 3),
   qmod24 (wakeHourVal sMin wMin + 7), qmod24 (wakeHourVal sMin wMin + 11),
   qmod24 (sleepHourVal sMin wMin), 24]

/-- The base energy weights at the seven key hours. -/
def base_energy : List ℚ := [2, 2, 10, 3, 7, 2, 2]

/-- The deduplicated, ascending `unique_hours` of backend.py line 67. -/
def unique_hours (sMin wMin : ℕ) : List ℚ := sortedDedup (key_hours sMin wMin)

/-- The `unique_energy` list of backend.py line 68: for each unique hour,
the adjusted energy at the first matching index of `key_hours`. -/
def unique_energy (sMin wMin : ℕ) (energy : ℚ) : List ℚ :=
  ((unique_hours sMin wMin).filter (fun h => decide (h ∈ key_hours sMin wMin))).map
    (fun h => (base_energy.map (fun e => e * (energy / 10))).getD
      (idxOf h (key_hours sMin wMin)) 0)

/-- Seconds past midnight of the sleep midpoint
`sleep_dt + timedelta(hours=duration/2)` (exact, since the duration is a
whole number of minutes). -/
def midSec (sMin wMin : ℕ) : ℕ := (sMin * 60 + durationMin sMin wMin * 30) % 86400

/-- Hour component of the midpoint datetime. -/
def midH (sMin wMin : ℕ) : ℕ := midSec sMin wMin / 3600

/-- Minute component of the midpoint datetime. -/
def midM (sMin wMin : ℕ) : ℕ := midSec sMin wMin % 3600 / 60

/-- The `midpoint_hour` value `midpoint_dt.hour + midpoint_dt.minute / 60`. -/
def midpointHour (sMin wMin : ℕ) : ℚ := (midH sMin wMin : ℚ) + (midM sMin wMin : ℚ) / 60

/-- Chronotype from a midpoint hour, backend.py line 56. -/
def chronotypeOf (x : ℚ) : String :=
  if x < 7/2 then "Early Bird" else if x < 5 then "Intermediate" else "Night Owl"

/-- The dictionary returned by `calculate_circadian_rhythm`. -/
structure Rhythm where
  midpoint : String
  chronotype : String
  wake_time : String
  morning_peak : String
  dip_time : String
  evening_peak : String
  bedtime : String
  hours : List ℚ
  energy : List ℚ

/-- Embedding of `calculate_circadian_rhythm`.  The `fill_value` of the
`interp1d` call is irrelevant here: every sample of `linspace(0, 24, 100)`
lies inside the knot range `[0, 24]`. -/
def calculate_circadian_rhythm (sleep_time wake_time : String) (energy : ℚ) : Option Rhythm :=
  match parseHHMM sleep_time, parseHHMM wake_time with
  | some (h1, m1), some (h2, m2) =>
    let sMin := 60 * h1 + m1
    let wMin := 60 * h2 + m2
    let xs := unique_hours sMin wMin
    let ys := unique_energy sMin wMin energy
    let pts := zip3Q xs ys (notAKnotM xs ys)
    some {
      midpoint := fmtHHMM (midH sMin wMin * 60 + midM sMin wMin)
      chronotype := chronotypeOf (midpointHour sMin wMin)
      wake_time := fmtHHMM (wakeAbs sMin wMin % 1440)
      morning_peak := fmtHHMM ((wakeAbs sMin wMin + 180) % 1440)
      dip_time := fmtHHMM ((wakeAbs sMin wMin + 420) % 1440)
      evening_peak := fmtHHMM ((wakeAbs sMin wMin + 660) % 1440)
      bedtime := sleep_time
      hours := linspace100
      energy := linspace100.map (fun t => clip (evalSpline pts t)) }
  | _, _ => none

/-- Greatest element of a sample list (all samples of interest are
nonnegative, so folding from 0 gives the true maximum). -/
def maxD (l : List ℚ) : ℚ := l.foldr max 0

/-! ### `analyze_sleep_logs` (backend.py lines 85-110) -/

/-- Embedding of `analyze_sleep_logs` over log tuples
`(sleep_time, wake_time, energy, stress, activity)`.  A `strptime`
failure anywhere in the loop aborts the whole call (`none`). -/
def analyze_sleep_logs (logs : List (String × String × ℤ × ℤ × ℤ)) :
    Option (ℚ × String × ℚ) :=
  if logs.isEmpty then some (0, "N/A", 0) else do
    let data ← logs.mapM (fun e => do
      let debt ← calculate_sleep_debt e.1 e.2.1
      let r ← calculate_circadian_rhythm e.1 e.2.1 (e.2.2.1 : ℚ)
      let mp ← parseHHMM r.midpoint
      pure (debt, (mp.1 : ℚ) + (mp.2 : ℚ) / 60, e.2.2.1))
    let n : ℚ := (logs.length : ℚ)
    some (pyRound2 ((data.map (fun x => x.1)).sum / n),
          chronotypeOf ((data.map (fun x => x.2.1)).sum / n),
          pyRound1 ((data.map (fun x => (x.2.2 : ℚ))).sum / n))

/-! ### `generate_recommendations` (backend.py lines 112-140)

String constants follow the source up to ASCII transliteration of the
apostrophe and numeric formatting, which no claim depends on. -/

/-- The sleep-debt warning tip. -/
def debtTip (sleep_debt : ℚ) : String :=
  "You are missing " ++ toString sleep_debt ++ " hours of sleep. Aim for 8+ hours tonight!"

/-- The Night Owl wind-down tip. -/
def nightOwlTip (r : Rhythm) : String :=
  "Wind down with calm music an hour before " ++ r.bedtime ++ "."

/-- The Early Bird no-late-naps tip. -/
def earlyBirdTip (r : Rhythm) : String :=
  "Avoid late naps to stick to " ++ r.bedtime ++ "."

/-- The low-quality calm-down tip. -/
def calmRoutineTip (r : Rhythm) : String :=
  "Try a 10-minute calm-down routine before " ++ r.bedtime ++ "."

/-- The wake marker line. -/
def wakeTipOf (r : Rhythm) : String :=
  "Wake Up Time (" ++ r.wake_time ++ "): Start your day here."

/-- The morning-peak marker line. -/
def morningPeakTipOf (r : Rhythm) : String :=
  "Peak Performance (" ++ r.morning_peak ++ "): Tackle tough tasks now."

/-- The afternoon-dip marker line. -/
def dipTipOf (r : Rhythm) : String :=
  "Afternoon Dip (" ++ r.dip_time ++ "): Take a short break or nap."

/-- The evening-peak marker line. -/
def eveningPeakTipOf (r : Rhythm) : String :=
  "Evening Boost (" ++ r.evening_peak ++ "): Good for exercise or projects."

/-- The bedtime marker line. -/
def bedtimeTipOf (r : Rhythm) : String :=
  "Bedtime (" ++ r.bedtime ++ "): Get to bed to reset your rhythm."

/-- Embedding of `generate_recommendations`: the three conditional tips
in order, then the five unconditional marker lines. -/
def generate_recommendations (sleep_debt : ℚ) (chronotype : String)
    (sleep_quality : ℤ) (rhythm : Rhythm) : List String :=
  (if 1 < sleep_debt then [debtTip sleep_debt] else []) ++
  (if chronotype = "Night Owl" then [nightOwlTip rhythm]
   else if chronotype = "Early Bird" then [earlyBirdTip rhythm] else []) ++
  (if sleep_quality < 6 then [calmRoutineTip rhythm] else []) ++
  [wakeTipOf rhythm, morningPeakTipOf rhythm, dipTipOf rhythm,
   eveningPeakTipOf rhythm, bedtimeTipOf rhythm]

/-! ### `predict_sleep_quality` (ml.py lines 33-54)

The fitted classifier and scaler are opaque to the claims checked here;
they are embedded as abstract functions, with `none` standing for the
untrained sentinel `(None, None)` returned by a failed `train_model`. -/

/-- Embedding of `predict_sleep_quality`: with a trained model the
feature vector is completed with the fixed population averages
(70 bpm, 8000 steps), scaled, and classified; otherwise 6. -/
def predict_sleep_quality (model : Option (List ℚ → ℤ))
    (scaler : Option (List ℚ → List ℚ))
    (sleep_duration activity_level stress_level : ℚ) : ℤ :=
  match model, scaler with
  | some m, some sc => m (sc [sleep_duration, activity_level, stress_level, 70, 8000])
  | _, _ => 6

/-! ### Spec-modelled comparison definitions

These definitions follow the claim/spec wording (not the source); each is
compared against the corresponding source-derived definition. -/

/-- Modelled from the spec (C2): the real-valued midpoint hour
`(sleep + duration/2) mod 24`. -/
def claimMidpointHour (sMin wMin : ℕ) : ℚ :=
  qmod24 ((sMin : ℚ) / 60 + ((durationMin sMin wMin : ℚ) / 60) / 2)

/-- Modelled from the spec (C7): the sleep anchor, adjusted by `+24`
whenever the sleep clock value falls before the wake clock value. -/
def claimSleepAnchor (sMin wMin : ℕ) : ℚ :=
  if sMin < wMin then clockHour sMin + 24 else clockHour sMin

/-- Modelled from the spec (C8): a zero-padded 24-hour `HH:MM` string. -/
def isStrictHHMM (s : String) : Bool :=
  match s.data with
  | [a, b, c, d, e] => isDig a && isDig b && c == ':' && isDig d && isDig e &&
      decide (10 * dval a + dval b ≤ 23) && decide (10 * dval d + dval e ≤ 59)
  | _ => false

/-- The shape `strptime("%H:%M")` actually accepts (amended C8): a 1- or
2-digit hour whose value is at most 23, a colon, and a 1- or 2-digit
minute whose value is at most 59, with nothing else.  (For a 2-digit
field the digit-wise regex condition coincides with the value bound.) -/
def lenientList : List Char → Bool
  | [h1, c, m1] => isDig h1 && c == ':' && isDig m1
  | [h1, c, m1, m2] =>
      (isDig h1 && c == ':' && isDig m1 && isDig m2 && decide (10 * dval m1 + dval m2 ≤ 59)) ||
      (isDig h1 && isDig c && decide (10 * dval h1 + dval c ≤ 23) && m1 == ':' && isDig m2)
  | [h1, h2, c, m1, m2] =>
      isDig h1 && isDig h2 && decide (10 * dval h1 + dval h2 ≤ 23) &&
      c == ':' && isDig m1 && isDig m2 && decide (10 * dval m1 + dval m2 ≤ 59)
  | _ => false

/-- String-level version of `lenientList`. -/
def lenientHHMM (s : String) : Bool := lenientList s.data

/-! ### Helper lemmas -/

theorem pyRound2_intCast (n : ℤ) : pyRound2 (n : ℚ) = n := by
  unfold pyRound2
  rw [show ((n : ℚ)) * 100 = ((n * 100 : ℤ) : ℚ) by push_cast; ring, pyRoundInt_intCast]
  push_cast
  ring

theorem durationMin_self (k : ℕ) : durationMin k k = 0 := by
  unfold durationMin wakeAbs
  simp

/-! ### Claim C1 -/

attribute [local semireducible] Rat.mul Rat.add Rat.sub Rat.inv in
/-- C1: for every pair of valid `HH:MM` times the sleep debt equals
`round(max(8 - duration, 0), 2)` where `duration` is `(wake - sleep) mod
24` hours; consequently the result lies in `[0, 8]` and vanishes whenever
the duration is at least 8 hours; and the two concrete examples hold. -/
theorem sleep_debt_spec_C1 :
    (∀ s t h1 m1 h2 m2, parseHHMM s = some (h1, m1) → parseHHMM t = some (h2, m2) →
      ∃ d : ℚ, calculate_sleep_debt s t = some d ∧
        d = pyRound2 (max (8 - ((((60 * h2 + m2 : ℤ) - (60 * h1 + m1 : ℤ)) % 1440 : ℤ) : ℚ) / 60) 0) ∧
        0 ≤ d ∧ d ≤ 8 ∧
        (8 ≤ ((((60 * h2 + m2 : ℤ) - (60 * h1 + m1 : ℤ)) % 1440 : ℤ) : ℚ) / 60 → d = 0)) ∧
    calculate_sleep_debt "23:00" "07:00" = some 0 ∧
    calculate_sleep_debt "01:00" "05:00" = some 4 := by
  refine ⟨?_, ?_, ?_⟩
  · intro s t h1 m1 h2 m2 hs ht
    obtain ⟨hh1, hm1⟩ := parseHHMM_bounds s h1 m1 hs
    obtain ⟨hh2, hm2⟩ := parseHHMM_bounds t h2 m2 ht
    have hmod := durationMin_eq_emod (60 * h1 + m1) (60 * h2 + m2) (by omega) (by omega)
    have hcast : ((durationMin (60 * h1 + m1) (60 * h2 + m2) : ℕ) : ℚ) =
        ((((60 * h2 + m2 : ℤ) - (60 * h1 + m1 : ℤ)) % 1440 : ℤ) : ℚ) := by
      exact_mod_cast hmod
    have hdnn : (0 : ℚ) ≤ ((durationMin (60 * h1 + m1) (60 * h2 + m2) : ℕ) : ℚ) := by positivity
    have hcalc : calculate_sleep_debt s t = some (pyRound2
        (max (8 - (durationMin (60 * h1 + m1) (60 * h2 + m2) : ℚ) * 60 / 3600) 0)) := by
      simp [calculate_sleep_debt, hs, ht]
    have hform : ((durationMin (60 * h1 + m1) (60 * h2 + m2) : ℕ) : ℚ) * 60 / 3600 =
        ((((60 * h2 + m2 : ℤ) - (60 * h1 + m1 : ℤ)) % 1440 : ℤ) : ℚ) / 60 := by
      rw [← hcast]; ring
    refine ⟨_, hcalc, ?_, ?_, ?_, ?_⟩
    · rw [hform]
    · exact pyRound2_nonneg _ (le_max_right _ 0)
    · have h8 : max (8 - (durationMin (60 * h1 + m1) (60 * h2 + m2) : ℚ) * 60 / 3600) 0 ≤
          ((8 : ℤ) : ℚ) := by
        push_cast
        apply max_le <;> [linarith [mul_nonneg hdnn (by norm_num : (0:ℚ) ≤ 60)]; norm_num]
      have := pyRound2_le _ 8 h8
      simpa using this
    · intro hge
      have hle : 8 - (durationMin (60 * h1 + m1) (60 * h2 + m2) : ℚ) * 60 / 3600 ≤ 0 := by
        rw [hform]
        linarith
      rw [max_eq_right hle, pyRound2_zero]
  · decide
  · decide

/-- C1 witness at `("01:00", "05:00")`. -/
theorem sleep_debt_spec_C1_witness :
    ∃ d : ℚ, calculate_sleep_debt "01:00" "05:00" = some d ∧
      d = pyRound2 (max (8 - ((((60 * 5 + 0 : ℤ) - (60 * 1 + 0 : ℤ)) % 1440 : ℤ) : ℚ) / 60) 0) ∧
      0 ≤ d ∧ d ≤ 8 ∧
      (8 ≤ ((((60 * 5 + 0 : ℤ) - (60 * 1 + 0 : ℤ)) % 1440 : ℤ) : ℚ) / 60 → d = 0) :=
  sleep_debt_spec_C1.1 "01:00" "05:00" 1 0 5 0 (by decide) (by decide)

/-! ### Claim C3 -/

/-- C3: with the untrained sentinel state (a missing model or scaler,
as returned by a failed `train_model`), `predict_sleep_quality` returns
the fixed default 6 for every input triple. -/
theorem predict_untrained_spec_C3 :
    ∀ (model : Option (List ℚ → ℤ)) (scaler : Option (List ℚ → List ℚ))
      (sd al sl : ℚ), model = none ∨ scaler = none →
      predict_sleep_quality model scaler sd al sl = 6 := by
  intro model scaler sd al sl h
  rcases h with h | h
  · subst h
    cases scaler <;> rfl
  · subst h
    cases model <;> rfl

/-- C3 witness with both sentinels `none` and arbitrary inputs. -/
theorem predict_untrained_spec_C3_witness :
    predict_sleep_quality none none 7 30 5 = 6 :=
  predict_untrained_spec_C3 none none 7 30 5 (Or.inl rfl)

/-! ### Claim C9 -/

/-- C9: when sleep and wake times are exactly equal the computed duration
is 0 (not 24): the sleep debt is the full 8-hour target and the rhythm
midpoint is the sleep time itself. -/
theorem equal_times_spec_C9 :
    ∀ s h m (e : ℚ), parseHHMM s = some (h, m) →
      calculate_sleep_debt s s = some 8 ∧
      (calculate_circadian_rhythm s s e).map Rhythm.midpoint = some (fmtHHMM (60 * h + m)) := by
  intro s h m e hp
  obtain ⟨hh, hm⟩ := parseHHMM_bounds s h m hp
  have hd : durationMin (60 * h + m) (60 * h + m) = 0 := durationMin_self _
  constructor
  · have hcalc : calculate_sleep_debt s s = some (pyRound2
        (max (8 - (durationMin (60 * h + m) (60 * h + m) : ℚ) * 60 / 3600) 0)) := by
      simp [calculate_sleep_debt, hp]
    rw [hcalc, hd]
    norm_num
    rw [show (8 : ℚ) = ((8 : ℤ) : ℚ) by norm_num, pyRound2_intCast]
  · have hms : midSec (60 * h + m) (60 * h + m) = (60 * h + m) * 60 := by
      unfold midSec
      rw [hd]
      simp only [Nat.mul_zero, Nat.zero_mul, Nat.add_zero]
      exact Nat.mod_eq_of_lt (by omega)
    have hH : midH (60 * h + m) (60 * h + m) = h := by
      unfold midH
      rw [hms]
      omega
    have hM : midM (60 * h + m) (60 * h + m) = m := by
      unfold midM
      rw [hms]
      omega
    simp only [calculate_circadian_rhythm, hp, Option.map_some']
    rw [hH, hM]
    congr 2
    omega

/-- C9 witness at `"23:30"`. -/
theorem equal_times_spec_C9_witness :
    calculate_sleep_debt "23:30" "23:30" = some 8 ∧
    (calculate_circadian_rhythm "23:30" "23:30" 7).map Rhythm.midpoint =
      some (fmtHHMM (60 * 23 + 30)) :=
  equal_times_spec_C9 "23:30" 23 30 7 (by decide)

/-! ### Claim C5 -/

/-- C5: for every input, the recommendation list ends with the five
marker lines (wake, morning peak, afternoon dip, evening peak, bedtime)
in that fixed order, and its length is 5 plus one for each fired
conditional (debt over 1 hour, Night-Owl-or-Early-Bird chronotype,
quality below 6), hence between 5 and 8. -/
theorem recommendations_spec_C5 :
    ∀ (debt : ℚ) (ct : String) (q : ℤ) (r : Rhythm),
      (generate_recommendations debt ct q r).length =
        5 + (if 1 < debt then 1 else 0) +
          (if ct = "Night Owl" ∨ ct = "Early Bird" then 1 else 0) +
          (if q < 6 then 1 else 0) ∧
      5 ≤ (generate_recommendations debt ct q r).length ∧
      (generate_recommendations debt ct q r).length ≤ 8 ∧
      (generate_recommendations debt ct q r).drop
          ((generate_recommendations debt ct q r).length - 5) =
        [wakeTipOf r, morningPeakTipOf r, dipTipOf r, eveningPeakTipOf r, bedtimeTipOf r] := by
  intro debt ct q r
  unfold generate_recommendations
  split_ifs <;> simp_all

-- scratch: C2 lemmas
theorem hourLt (a b c : ℕ) : ((a : ℚ) + (b : ℚ) / 60 < (c : ℚ) / 60) ↔ 60 * a + b < c := by
  rw [show ((a:ℚ)) + (b:ℚ)/60 = ((60*a+b : ℕ) : ℚ)/60 by push_cast; ring]
  rw [div_lt_div_iff_of_pos_right (by norm_num : (0:ℚ) < 60)]
  exact_mod_cast Iff.rfl

theorem midSec_eq (s w : ℕ) : midSec s w = 30 * ((2 * s + durationMin s w) % 2880) := by
  unfold midSec
  rw [show s * 60 + durationMin s w * 30 = 30 * (2 * s + durationMin s w) by ring,
      show (86400 : ℕ) = 30 * 2880 from rfl, Nat.mul_mod_mul_left]

theorem claimMidpointHour_eq (s w : ℕ) :
    claimMidpointHour s w = (((2 * s + durationMin s w) % 2880 : ℕ) : ℚ) / 120 := by
  unfold claimMidpointHour qmod24
  obtain ⟨q, r, hr, hA⟩ : ∃ q r, r < 2880 ∧ 2 * s + durationMin s w = 2880 * q + r :=
    ⟨(2 * s + durationMin s w) / 2880, (2 * s + durationMin s w) % 2880,
     Nat.mod_lt _ (by norm_num), by omega⟩
  have hmod : (2 * s + durationMin s w) % 2880 = r := by omega
  have h1 : (s : ℚ)/60 + ((durationMin s w : ℚ)/60)/2 = ((2880 * q + r : ℕ) : ℚ)/120 := by
    rw [← hA]
    push_cast
    ring
  rw [hmod, h1]
  have hfl : ⌊((2880 * q + r : ℕ) : ℚ)/120/24⌋ = (q : ℤ) := by
    have hx : ((2880 * q + r : ℕ) : ℚ)/120/24 = (q : ℚ) + (r : ℚ)/2880 := by
      push_cast
      ring
    rw [hx, Int.floor_eq_iff]
    constructor
    · push_cast
      have : (0:ℚ) ≤ (r : ℚ)/2880 := by positivity
      linarith
    · push_cast
      have : (r:ℚ)/2880 < 1 := by
        rw [div_lt_one (by norm_num : (0:ℚ) < 2880)]
        exact_mod_cast hr
      linarith
  rw [hfl]
  push_cast
  ring

theorem chronotype_eq (s w : ℕ) :
    chronotypeOf (midpointHour s w) = chronotypeOf (claimMidpointHour s w) := by
  have hH : midH s w = ((2 * s + durationMin s w) % 2880) / 120 := by
    unfold midH
    rw [midSec_eq]
    omega
  have hM : midM s w = ((2 * s + durationMin s w) % 2880) % 120 / 2 := by
    unfold midM
    rw [midSec_eq]
    omega
  unfold chronotypeOf midpointHour
  rw [claimMidpointHour_eq, hH, hM]
  have e1 : ((((2 * s + durationMin s w) % 2880) / 120 : ℕ) : ℚ) +
      ((((2 * s + durationMin s w) % 2880) % 120 / 2 : ℕ) : ℚ)/60 < 7/2 ↔
      (2 * s + durationMin s w) % 2880 < 420 := by
    rw [show (7/2 : ℚ) = ((210 : ℕ) : ℚ)/60 by norm_num, hourLt]
    omega
  have e2 : ((((2 * s + durationMin s w) % 2880) / 120 : ℕ) : ℚ) +
      ((((2 * s + durationMin s w) % 2880) % 120 / 2 : ℕ) : ℚ)/60 < 5 ↔
      (2 * s + durationMin s w) % 2880 < 600 := by
    rw [show (5 : ℚ) = ((300 : ℕ) : ℚ)/60 by norm_num, hourLt]
    omega
  have e3 : (((2 * s + durationMin s w) % 2880 : ℕ) : ℚ) / 120 < 7/2 ↔
      (2 * s + durationMin s w) % 2880 < 420 := by
    rw [div_lt_iff₀ (by norm_num : (0:ℚ) < 120),
        show (7:ℚ)/2*120 = ((420:ℕ):ℚ) by norm_num]
    exact Nat.cast_lt
  have e4 : (((2 * s + durationMin s w) % 2880 : ℕ) : ℚ) / 120 < 5 ↔
      (2 * s + durationMin s w) % 2880 < 600 := by
    rw [div_lt_iff₀ (by norm_num : (0:ℚ) < 120),
        show (5:ℚ)*120 = ((600:ℕ):ℚ) by norm_num]
    exact Nat.cast_lt
  simp only [e1, e2, e3, e4]

/-! ### Claim C2 -/

attribute [local semireducible] Rat.mul Rat.add Rat.sub Rat.inv in
/-- C2: for every valid input pair the chronotype is assigned from the
real-valued midpoint hour `(sleep + duration/2) mod 24` by the fixed
thresholds (before 3:30 Early Bird, before 5:00 Intermediate, otherwise
Night Owl), regardless of sleep duration; and the two concrete examples
of the spec hold. -/
theorem chronotype_spec_C2 :
    (∀ s t h1 m1 h2 m2 (e : ℚ), parseHHMM s = some (h1, m1) → parseHHMM t = some (h2, m2) →
      (calculate_circadian_rhythm s t e).map Rhythm.chronotype =
        some (chronotypeOf (claimMidpointHour (60 * h1 + m1) (60 * h2 + m2)))) ∧
    (calculate_circadian_rhythm "22:00" "06:00" 8).map Rhythm.chronotype = some "Early Bird" ∧
    (calculate_circadian_rhythm "02:00" "10:00" 6).map Rhythm.chronotype = some "Night Owl" := by
  refine ⟨?_, by decide, by decide⟩
  intro s t h1 m1 h2 m2 e hs ht
  simp only [calculate_circadian_rhythm, hs, ht, Option.map_some']
  rw [chronotype_eq]

/-- C2 witness at `("22:00", "06:00")` with energy 8. -/
theorem chronotype_spec_C2_witness :
    (calculate_circadian_rhythm "22:00" "06:00" 8).map Rhythm.chronotype =
      some (chronotypeOf (claimMidpointHour (60 * 22 + 0) (60 * 6 + 0))) :=
  chronotype_spec_C2.1 "22:00" "06:00" 22 0 6 0 8 (by decide) (by decide)

-- scratch: sortedDedup and anchor lemmas
theorem mem_insertSD (a x : ℚ) (l : List ℚ) : a ∈ insertSD x l ↔ a = x ∨ a ∈ l := by
  induction l with
  | nil => simp [insertSD]
  | cons y ys ih =>
    unfold insertSD
    split
    · simp [List.mem_cons]
    · split
      · rename_i hlt heq
        subst heq
        simp [List.mem_cons]
      · simp [List.mem_cons, ih]
        tauto

theorem head?_insertSD (x : ℚ) (l : List ℚ) :
    (insertSD x l).head? = some x ∨ (insertSD x l).head? = l.head? := by
  cases l with
  | nil => simp [insertSD]
  | cons y ys =>
    unfold insertSD
    split
    · simp
    · split
      · simp
      · simp

theorem chain'_insertSD (x : ℚ) (l : List ℚ) (h : List.Chain' (· < ·) l) :
    List.Chain' (· < ·) (insertSD x l) := by
  induction l with
  | nil => simp [insertSD]
  | cons y ys ih =>
    have hhead := List.chain'_cons'.mp h
    unfold insertSD
    split
    · rename_i hlt
      exact List.chain'_cons'.mpr ⟨by simp [hlt], h⟩
    · split
      · exact h
      · rename_i hnlt hne
        have hyx : y < x := by
          rcases lt_trichotomy x y with h1 | h1 | h1
          · exact absurd h1 hnlt
          · exact absurd h1 hne
          · exact h1
        refine List.chain'_cons'.mpr ⟨?_, ih hhead.2⟩
        intro z hz
        rcases head?_insertSD x ys with he | he
        · rw [he] at hz
          simp only [Option.mem_def, Option.some.injEq] at hz
          subst hz
          exact hyx
        · rw [he] at hz
          exact hhead.1 z hz

theorem sortedDedup_chain' (l : List ℚ) : List.Chain' (· < ·) (sortedDedup l) := by
  unfold sortedDedup
  induction l with
  | nil => simp
  | cons x xs ih => exact chain'_insertSD x _ ih

theorem mem_sortedDedup (a : ℚ) (l : List ℚ) : a ∈ sortedDedup l ↔ a ∈ l := by
  unfold sortedDedup
  induction l with
  | nil => simp
  | cons x xs ih =>
    simp only [List.foldr_cons, mem_insertSD, ih, List.mem_cons]

theorem sortedDedup_nodup (l : List ℚ) : (sortedDedup l).Nodup := by
  have := List.chain'_iff_pairwise.mp (sortedDedup_chain' l)
  exact this.imp (fun h => ne_of_lt h)

theorem sortedDedup_toFinset (l : List ℚ) : (sortedDedup l).toFinset = l.toFinset := by
  apply Finset.ext
  intro a
  simp [List.mem_toFinset, mem_sortedDedup]

theorem length_sortedDedup (l : List ℚ) : (sortedDedup l).length = l.toFinset.card := by
  rw [← sortedDedup_toFinset, List.toFinset_card_of_nodup (sortedDedup_nodup l)]

-- scratch: clockHour / qmod24 lemmas and anchor cardinality
theorem clockHour_eq (k : ℕ) : clockHour k = (k : ℚ) / 60 := by
  unfold clockHour
  have h60 : ((k / 60 : ℕ) : ℚ) * 60 + ((k % 60 : ℕ) : ℚ) = (k : ℚ) := by
    exact_mod_cast (by omega : (k / 60) * 60 + k % 60 = k)
  field_simp
  linarith

theorem clockHour_nonneg (k : ℕ) : 0 ≤ clockHour k := by
  rw [clockHour_eq]
  positivity

theorem clockHour_lt (k : ℕ) (h : k < 1440) : clockHour k < 24 := by
  rw [clockHour_eq, div_lt_iff₀ (by norm_num : (0:ℚ) < 60)]
  norm_num
  exact_mod_cast h

theorem qmod24_eq (x : ℚ) (h0 : 0 ≤ x) (h1 : x < 48) :
    qmod24 x = if x < 24 then x else x - 24 := by
  unfold qmod24
  by_cases h : x < 24
  · rw [if_pos h]
    have hf : ⌊x / 24⌋ = 0 := by
      rw [Int.floor_eq_iff]
      constructor
      · push_cast
        positivity
      · rw [div_lt_iff₀ (by norm_num : (0:ℚ) < 24)]
        push_cast
        linarith
    rw [hf]
    norm_num
  · rw [if_neg h]
    push_neg at h
    have hf : ⌊x / 24⌋ = 1 := by
      rw [Int.floor_eq_iff]
      constructor
      · rw [le_div_iff₀ (by norm_num : (0:ℚ) < 24)]
        push_cast
        linarith
      · rw [div_lt_iff₀ (by norm_num : (0:ℚ) < 24)]
        push_cast
        linarith
    rw [hf]
    push_cast
    ring

-- scratch: anchor cardinality and C7/C10
theorem card_four (a b c d : ℚ) (h1 : a ≠ b) (h2 : a ≠ c) (h3 : a ≠ d)
    (h4 : b ≠ c) (h5 : b ≠ d) (h6 : c ≠ d) : ({a, b, c, d} : Finset ℚ).card = 4 := by
  rw [Finset.card_insert_of_not_mem (by simp [h1, h2, h3]),
      Finset.card_insert_of_not_mem (by simp [h4, h5]),
      Finset.card_insert_of_not_mem (by simp [h6]),
      Finset.card_singleton]

theorem anchors_card (x : ℚ) (h0 : 0 ≤ x) (h1 : x < 24) :
    ({x, qmod24 (x + 3), qmod24 (x + 7), qmod24 (x + 11)} : Finset ℚ).card = 4 := by
  rw [qmod24_eq (x + 3) (by linarith) (by linarith),
      qmod24_eq (x + 7) (by linarith) (by linarith),
      qmod24_eq (x + 11) (by linarith) (by linarith)]
  split_ifs <;> apply card_four <;> intro hcontra <;> linarith

theorem wakeHourVal_nonneg (s w : ℕ) : 0 ≤ wakeHourVal s w := clockHour_nonneg _

theorem wakeHourVal_lt (s w : ℕ) : wakeHourVal s w < 24 :=
  clockHour_lt _ (Nat.mod_lt _ (by norm_num))

theorem toFinset_key_hours_card (s w : ℕ) :
    5 ≤ (key_hours s w).toFinset.card := by
  have hx0 : 0 ≤ wakeHourVal s w := wakeHourVal_nonneg s w
  have hx1 : wakeHourVal s w < 24 := wakeHourVal_lt s w
  set x := wakeHourVal s w with hxdef
  have hBlt : ∀ b ∈ ({x, qmod24 (x + 3), qmod24 (x + 7), qmod24 (x + 11)} : Finset ℚ), b < 24 := by
    intro b hb
    simp only [Finset.mem_insert, Finset.mem_singleton] at hb
    rcases hb with rfl | rfl | rfl | rfl
    · exact hx1
    · rw [qmod24_eq (x + 3) (by linarith) (by linarith)]
      split_ifs <;> linarith
    · rw [qmod24_eq (x + 7) (by linarith) (by linarith)]
      split_ifs <;> linarith
    · rw [qmod24_eq (x + 11) (by linarith) (by linarith)]
      split_ifs <;> linarith
  have hA : ({(0 : ℚ), 24} : Finset ℚ).card = 2 := by
    rw [Finset.card_insert_of_not_mem (by norm_num), Finset.card_singleton]
  have hB : ({x, qmod24 (x + 3), qmod24 (x + 7), qmod24 (x + 11)} : Finset ℚ).card = 4 :=
    anchors_card x hx0 hx1
  have hsub : ({(0 : ℚ), 24} : Finset ℚ) ∪
      ({x, qmod24 (x + 3), qmod24 (x + 7), qmod24 (x + 11)} : Finset ℚ) ⊆
      (key_hours s w).toFinset := by
    intro a ha
    simp only [Finset.mem_union, Finset.mem_insert, Finset.mem_singleton] at ha
    simp only [List.mem_toFinset, key_hours, List.mem_cons, List.not_mem_nil, or_false]
    tauto
  have hint : (({(0 : ℚ), 24} : Finset ℚ) ∩
      ({x, qmod24 (x + 3), qmod24 (x + 7), qmod24 (x + 11)} : Finset ℚ)).card ≤ 1 := by
    have hss : ({(0 : ℚ), 24} : Finset ℚ) ∩
        ({x, qmod24 (x + 3), qmod24 (x + 7), qmod24 (x + 11)} : Finset ℚ) ⊆ {0} := by
      intro a ha
      rw [Finset.mem_inter] at ha
      have hb := hBlt a ha.2
      have ha1 := ha.1
      simp only [Finset.mem_insert, Finset.mem_singleton] at ha1
      rcases ha1 with rfl | rfl
      · exact Finset.mem_singleton_self 0
      · linarith
    calc (({(0 : ℚ), 24} : Finset ℚ) ∩
        ({x, qmod24 (x + 3), qmod24 (x + 7), qmod24 (x + 11)} : Finset ℚ)).card
        ≤ ({(0 : ℚ)} : Finset ℚ).card := Finset.card_le_card hss
      _ = 1 := Finset.card_singleton 0
  have hunion := Finset.card_union_add_card_inter ({(0 : ℚ), 24} : Finset ℚ)
    ({x, qmod24 (x + 3), qmod24 (x + 7), qmod24 (x + 11)} : Finset ℚ)
  have hle := Finset.card_le_card hsub
  omega

theorem length_unique_hours_ge (s w : ℕ) : 5 ≤ (unique_hours s w).length := by
  rw [unique_hours, length_sortedDedup]
  exact toFinset_key_hours_card s w

theorem unique_energy_length (s w : ℕ) (e : ℚ) :
    (unique_energy s w e).length = (unique_hours s w).length := by
  unfold unique_energy
  have hfil : (unique_hours s w).filter (fun h => decide (h ∈ key_hours s w)) =
      unique_hours s w := by
    apply List.filter_eq_self.mpr
    intro a ha
    simp only [decide_eq_true_eq]
    exact (mem_sortedDedup a _).mp ha
  rw [hfil, List.length_map]

theorem sleep_anchor_eq (s w : ℕ) (hs : s < 1440) :
    qmod24 (sleepHourVal s w) = clockHour s := by
  unfold sleepHourVal
  have hcond : ¬ (wakeAbs s w < s) := by
    unfold wakeAbs
    split <;> omega
  rw [if_neg hcond]
  have h0 : 0 ≤ clockHour s := clockHour_nonneg s
  have h1 : clockHour s < 24 := clockHour_lt s hs
  rw [qmod24_eq _ (by linarith) (by linarith), if_neg (by linarith)]
  ring

/-! ### Claim C10 -/

/-- C10: for every valid input pair the deduplicated sorted anchor list
contains at least 5 distinct hours (0.0 and 24.0 are always present),
so the at-least-4-control-points precondition of the cubic interpolation
always holds, and the paired value list has matching length, so curve
construction never fails for valid inputs. -/
theorem anchor_count_spec_C10 :
    ∀ s t h1 m1 h2 m2 (e : ℚ), parseHHMM s = some (h1, m1) → parseHHMM t = some (h2, m2) →
      5 ≤ (unique_hours (60 * h1 + m1) (60 * h2 + m2)).length ∧
      4 ≤ (unique_hours (60 * h1 + m1) (60 * h2 + m2)).length ∧
      (0 : ℚ) ∈ unique_hours (60 * h1 + m1) (60 * h2 + m2) ∧
      (24 : ℚ) ∈ unique_hours (60 * h1 + m1) (60 * h2 + m2) ∧
      (unique_energy (60 * h1 + m1) (60 * h2 + m2) e).length =
        (unique_hours (60 * h1 + m1) (60 * h2 + m2)).length := by
  intro s t h1 m1 h2 m2 e hs ht
  refine ⟨length_unique_hours_ge _ _, le_trans (by norm_num) (length_unique_hours_ge _ _),
    ?_, ?_, unique_energy_length _ _ _⟩
  · exact (mem_sortedDedup 0 _).mpr (by simp [key_hours])
  · exact (mem_sortedDedup 24 _).mpr (by simp [key_hours])

/-- C10 witness at `("22:00", "06:00")`. -/
theorem anchor_count_spec_C10_witness :
    5 ≤ (unique_hours (60 * 22 + 0) (60 * 6 + 0)).length ∧
    4 ≤ (unique_hours (60 * 22 + 0) (60 * 6 + 0)).length ∧
    (0 : ℚ) ∈ unique_hours (60 * 22 + 0) (60 * 6 + 0) ∧
    (24 : ℚ) ∈ unique_hours (60 * 22 + 0) (60 * 6 + 0) ∧
    (unique_energy (60 * 22 + 0) (60 * 6 + 0) 8).length =
      (unique_hours (60 * 22 + 0) (60 * 6 + 0)).length :=
  anchor_count_spec_C10 "22:00" "06:00" 22 0 6 0 8 (by decide) (by decide)

/-! ### Claim C7 -/

attribute [local semireducible] Rat.mul Rat.add Rat.sub Rat.inv in
/-- C7 counterexample: at sleep 01:00, wake 05:00 the sleep clock value
(1) falls before the wake clock value (5), so the claim posits the sleep
anchor 1 + 24 = 25; but the computed key-hours list does not contain 25 —
its sleep anchor is the raw clock hour 1, because the code's `+24`
adjustment (whose guard compares against the already-adjusted wake
datetime) is always applied and then cancelled by the `% 24`. -/
theorem anchor_list_spec_C7_counterexample :
    claimSleepAnchor 60 300 = 25 ∧ (25 : ℚ) ∉ key_hours 60 300 ∧
      qmod24 (sleepHourVal 60 300) = 1 := by
  refine ⟨by decide, by decide, by decide⟩

/-- C7 (amended): for every valid input pair the seven anchor hours are
0.0, wake, wake+3, wake+7 and wake+11 (each mod 24), the raw sleep clock
hour (the `+24` adjustment never survives the final `mod 24`, so no
ordering-preserving shift is applied), and 24.0; every anchor lies in
`[0, 24]`. -/
theorem anchor_list_spec_C7 :
    ∀ s t h1 m1 h2 m2, parseHHMM s = some (h1, m1) → parseHHMM t = some (h2, m2) →
      key_hours (60 * h1 + m1) (60 * h2 + m2) =
        [0, wakeHourVal (60 * h1 + m1) (60 * h2 + m2),
         qmod24 (wakeHourVal (60 * h1 + m1) (60 * h2 + m2) + 3),
         qmod24 (wakeHourVal (60 * h1 + m1) (60 * h2 + m2) + 7),
         qmod24 (wakeHourVal (60 * h1 + m1) (60 * h2 + m2) + 11),
         clockHour (60 * h1 + m1), 24] ∧
      ∀ a ∈ key_hours (60 * h1 + m1) (60 * h2 + m2), 0 ≤ a ∧ a ≤ 24 := by
  intro s t h1 m1 h2 m2 hs ht
  obtain ⟨hh1, hm1⟩ := parseHHMM_bounds s h1 m1 hs
  have hslt : 60 * h1 + m1 < 1440 := by omega
  have hx0 : 0 ≤ wakeHourVal (60 * h1 + m1) (60 * h2 + m2) := wakeHourVal_nonneg _ _
  have hx1 : wakeHourVal (60 * h1 + m1) (60 * h2 + m2) < 24 := wakeHourVal_lt _ _
  constructor
  · unfold key_hours
    rw [sleep_anchor_eq _ _ hslt]
  · intro a ha
    simp only [key_hours, List.mem_cons, List.not_mem_nil, or_false] at ha
    have hsa := sleep_anchor_eq (60 * h1 + m1) (60 * h2 + m2) hslt
    have hc0 : 0 ≤ clockHour (60 * h1 + m1) := clockHour_nonneg _
    have hc1 : clockHour (60 * h1 + m1) < 24 := clockHour_lt _ hslt
    rcases ha with rfl | rfl | rfl | rfl | rfl | rfl | rfl
    · norm_num
    · exact ⟨hx0, by linarith⟩
    · rw [qmod24_eq _ (by linarith) (by linarith)]
      constructor
      · split_ifs <;> linarith
      · split_ifs <;> linarith
    · rw [qmod24_eq _ (by linarith) (by linarith)]
      constructor
      · split_ifs <;> linarith
      · split_ifs <;> linarith
    · rw [qmod24_eq _ (by linarith) (by linarith)]
      constructor
      · split_ifs <;> linarith
      · split_ifs <;> linarith
    · rw [hsa]
      exact ⟨hc0, by linarith⟩
    · norm_num

/-- C7 amended-claim witness at `("01:00", "05:00")`. -/
theorem anchor_list_spec_C7_witness :
    key_hours (60 * 1 + 0) (60 * 5 + 0) =
      [0, wakeHourVal (60 * 1 + 0) (60 * 5 + 0),
       qmod24 (wakeHourVal (60 * 1 + 0) (60 * 5 + 0) + 3),
       qmod24 (wakeHourVal (60 * 1 + 0) (60 * 5 + 0) + 7),
       qmod24 (wakeHourVal (60 * 1 + 0) (60 * 5 + 0) + 11),
       clockHour (60 * 1 + 0), 24] ∧
    ∀ a ∈ key_hours (60 * 1 + 0) (60 * 5 + 0), 0 ≤ a ∧ a ≤ 24 :=
  anchor_list_spec_C7 "01:00" "05:00" 1 0 5 0 (by decide) (by decide)

-- scratch: C8 characterization
/-- Acceptance of the minute field coincides with the value-form token. -/
def minTok : List Char → Bool
  | [c] => isDig c
  | [c, d] => isDig c && isDig d && decide (10 * dval c + dval d ≤ 59)
  | _ => false

theorem parseMin_isSome (rest : List Char) : (parseMin rest).isSome = minTok rest := by
  match rest with
  | [] => rfl
  | [c] =>
    cases h : isDig c <;> simp [parseMin, minTok, h]
  | [c, d] =>
    cases hc : isDig c <;> cases hd : isDig d <;> simp [parseMin, minTok, hc, hd]
    · have h9d := dval_le_of_isDig d hd
      by_cases h5 : dval c ≤ 5
      · have h59 : 10 * dval c + dval d ≤ 59 := by omega
        simp [h5, h59]
      · have h59 : ¬ (10 * dval c + dval d ≤ 59) := by omega
        simp [h5, h59]
  | c :: d :: e :: r => rfl

theorem parse_hour_cond (a b : Char) :
    (isDig a && isDig b && (decide (dval a ≤ 1) || (dval a == 2 && decide (dval b ≤ 3)))) =
    (isDig a && isDig b && decide (10 * dval a + dval b ≤ 23)) := by
  cases ha : isDig a <;> cases hb : isDig b <;> simp [ha, hb]
  have h9a := dval_le_of_isDig a ha
  have h9b := dval_le_of_isDig b hb
  have hx : (decide (dval a ≤ 1) || (dval a == 2 && decide (dval b ≤ 3))) = true ↔
      10 * dval a + dval b ≤ 23 := by
    simp only [Bool.or_eq_true, Bool.and_eq_true, decide_eq_true_eq, beq_iff_eq]
    omega
  by_cases h23 : 10 * dval a + dval b ≤ 23
  · rw [decide_eq_true h23]
    exact hx.mpr h23
  · rw [decide_eq_false h23]
    exact Bool.eq_false_iff.mpr (fun hc => h23 (hx.mp hc))

theorem isDig_of_beq_colon (b : Char) (h : (b == ':') = true) : isDig b = false := by
  have hb : b = ':' := beq_iff_eq.mp h
  rw [hb]
  rfl

theorem beq_colon_false_of_isDig (b : Char) (h : isDig b = true) : (b == ':') = false := by
  apply beq_eq_false_iff_ne.mpr
  intro hc
  rw [hc] at h
  exact absurd h (by decide)

theorem isSome_opt_map {α β : Type} (f : α → β) (o : Option α) :
    (o.map f).isSome = o.isSome := by
  cases o <;> rfl

theorem parseHHMMList_cons (a b : Char) (rest : List Char) :
    parseHHMMList (a :: b :: rest) =
      (if (isDig a && isDig b && (decide (dval a ≤ 1) || (dval a == 2 && decide (dval b ≤ 3)))) = true then
        match rest with
        | ':' :: mrest => (parseMin mrest).map (fun m => (10 * dval a + dval b, m))
        | _ => none
      else if (isDig a && b == ':') = true then
        (parseMin rest).map (fun m => (dval a, m))
      else none) := rfl

theorem parseHHMMList_isSome (l : List Char) : (parseHHMMList l).isSome = lenientList l := by
  match l with
  | [] => rfl
  | [a] => rfl
  | [a, b] =>
    rw [show lenientList [a, b] = false from rfl, parseHHMMList_cons]
    split_ifs <;> simp [parseMin]
  | [a, b, c] =>
    rw [parseHHMMList_cons, parse_hour_cond]
    simp only [lenientList]
    by_cases h2d : (isDig a && isDig b && decide (10 * dval a + dval b ≤ 23)) = true
    · rw [if_pos h2d]
      simp only [Bool.and_eq_true, decide_eq_true_eq] at h2d
      have hbc := beq_colon_false_of_isDig b h2d.1.2
      split
      · rename_i mrest heq
        simp only [List.cons.injEq] at heq
        obtain ⟨hc, hm⟩ := heq
        subst hm
        simp [parseMin, hbc]
      · simp [hbc]
    · rw [if_neg h2d]
      by_cases h1d : (isDig a && b == ':') = true
      · rw [if_pos h1d]
        simp only [Bool.and_eq_true] at h1d
        rw [isSome_opt_map, parseMin_isSome]
        simp [minTok, h1d.1, h1d.2]
      · rw [if_neg h1d]
        simp only [Bool.and_eq_true, not_and_or, Bool.not_eq_true] at h1d
        rcases h1d with h | h <;> simp [h]
  | [a, b, c, d] =>
    rw [parseHHMMList_cons, parse_hour_cond]
    simp only [lenientList]
    by_cases h2d : (isDig a && isDig b && decide (10 * dval a + dval b ≤ 23)) = true
    · rw [if_pos h2d]
      have h2dc := h2d
      simp only [Bool.and_eq_true, decide_eq_true_eq] at h2d
      have hbc := beq_colon_false_of_isDig b h2d.1.2
      split
      · rename_i mrest heq
        simp only [List.cons.injEq] at heq
        obtain ⟨hc, hm⟩ := heq
        subst hm
        have hcc : (c == ':') = true := by rw [hc]; rfl
        rw [isSome_opt_map, parseMin_isSome]
        simp [minTok, hbc, hcc, h2d.1.1, h2d.1.2, h2d.2]
      · rename_i hnom
        have hcne : ¬ (c = ':') := by
          intro hcc
          exact hnom _ (by rw [hcc])
        have hcc : (c == ':') = false := beq_eq_false_iff_ne.mpr hcne
        simp [hbc, hcc]
    · rw [if_neg h2d]
      have h2dx := Bool.eq_false_iff.mpr h2d
      by_cases h1d : (isDig a && b == ':') = true
      · rw [if_pos h1d]
        simp only [Bool.and_eq_true] at h1d
        rw [isSome_opt_map, parseMin_isSome]
        have hb := isDig_of_beq_colon b h1d.2
        simp [minTok, h1d.1, h1d.2, hb]
      · rw [if_neg h1d]
        simp only [Bool.and_eq_true, not_and_or, Bool.not_eq_true] at h1d
        simp only [Option.isSome_none, Bool.false_eq, Bool.or_eq_false_iff]
        constructor
        · rcases h1d with h | h <;> simp [h]
        · rcases Bool.and_eq_false_iff.mp h2dx with hx | hx
          · rcases Bool.and_eq_false_iff.mp hx with hy | hy <;> simp [hy]
          · simp [hx]
  | [a, b, c, d, e2] =>
    rw [parseHHMMList_cons, parse_hour_cond]
    simp only [lenientList]
    by_cases h2d : (isDig a && isDig b && decide (10 * dval a + dval b ≤ 23)) = true
    · rw [if_pos h2d]
      have h2dc := h2d
      simp only [Bool.and_eq_true, decide_eq_true_eq] at h2d
      split
      · rename_i mrest heq
        simp only [List.cons.injEq] at heq
        obtain ⟨hc, hm⟩ := heq
        subst hm
        have hcc : (c == ':') = true := by rw [hc]; rfl
        rw [isSome_opt_map, parseMin_isSome]
        simp [minTok, hcc, h2d.1.1, h2d.1.2, h2d.2]
      · rename_i hnom
        have hcne : ¬ (c = ':') := by
          intro hcc
          exact hnom _ (by rw [hcc])
        have hcc : (c == ':') = false := beq_eq_false_iff_ne.mpr hcne
        simp [hcc]
    · rw [if_neg h2d]
      have h2dx := Bool.eq_false_iff.mpr h2d
      have hrhs : (isDig a && isDig b && decide (10 * dval a + dval b ≤ 23) &&
          (c == ':') && isDig d && isDig e2 && decide (10 * dval d + dval e2 ≤ 59)) = false := by
        rcases Bool.and_eq_false_iff.mp h2dx with hx | hx
        · rcases Bool.and_eq_false_iff.mp hx with hy | hy <;> simp [hy]
        · simp [hx]
      rw [hrhs]
      by_cases h1d : (isDig a && b == ':') = true
      · rw [if_pos h1d]
        rw [isSome_opt_map]
        rw [show parseMin [c, d, e2] = none from rfl]
        rfl
      · rw [if_neg h1d]
        rfl
  | a :: b :: c :: d :: e2 :: f :: r =>
    rw [show lenientList (a :: b :: c :: d :: e2 :: f :: r) = false from rfl,
        parseHHMMList_cons]
    split_ifs
    · split
      · rename_i mrest heq
        simp only [List.cons.injEq] at heq
        obtain ⟨hc, hm⟩ := heq
        rw [← hm]
        rw [show parseMin (d :: e2 :: f :: r) = none from rfl]
        rfl
      · rfl
    · rw [show parseMin (c :: d :: e2 :: f :: r) = none from rfl]
      rfl
    · rfl

/-! ### Claim C8 -/

attribute [local semireducible] Rat.mul Rat.add Rat.sub Rat.inv in
/-- C8 counterexample: `"7:00"` is not a zero-padded `HH:MM` time, yet
`strptime` accepts it (`%H` matches one digit) and `calculate_sleep_debt`
returns a value instead of failing. -/
theorem time_format_spec_C8_counterexample :
    isStrictHHMM "7:00" = false ∧ parseHHMM "7:00" = some (7, 0) ∧
      calculate_sleep_debt "7:00" "07:00" = some 8 := by
  refine ⟨by decide, by decide, by decide⟩

/-- C8 (amended): both functions fail exactly on inputs that are not of
the lenient shape `strptime("%H:%M")` accepts — a 1- or 2-digit hour at
most 23, a colon, and a 1- or 2-digit minute at most 59 — rather than on
all non-zero-padded strings. -/
theorem time_format_spec_C8 :
    ∀ s t (e : ℚ),
      (calculate_sleep_debt s t).isSome = (lenientHHMM s && lenientHHMM t) ∧
      (calculate_circadian_rhythm s t e).isSome = (lenientHHMM s && lenientHHMM t) := by
  intro s t e
  have hs := parseHHMMList_isSome s.data
  have ht := parseHHMMList_isSome t.data
  unfold lenientHHMM
  rw [← hs, ← ht]
  unfold calculate_sleep_debt calculate_circadian_rhythm parseHHMM
  cases hps : parseHHMMList s.data with
  | none => simp
  | some p =>
    obtain ⟨h1, m1⟩ := p
    cases hpt : parseHHMMList t.data with
    | none => simp
    | some q =>
      obtain ⟨h2, m2⟩ := q
      simp

-- scratch: C4 analyze
theorem midH_lt (s w : ℕ) : midH s w < 24 := by
  unfold midH midSec
  omega

theorem midM_lt (s w : ℕ) : midM s w < 60 := by
  unfold midM midSec
  omega

theorem analyze_single (st wt : String) (en stl act : ℤ) (h1 m1 h2 m2 : ℕ)
    (hs : parseHHMM st = some (h1, m1)) (ht : parseHHMM wt = some (h2, m2)) :
    ∃ d r, calculate_sleep_debt st wt = some d ∧
      calculate_circadian_rhythm st wt (en : ℚ) = some r ∧
      analyze_sleep_logs [(st, wt, en, stl, act)] = some (d, r.chronotype, (en : ℚ)) := by
  have hcalc : calculate_sleep_debt st wt = some (pyRound2
      (max (8 - (durationMin (60 * h1 + m1) (60 * h2 + m2) : ℚ) * 60 / 3600) 0)) := by
    simp [calculate_sleep_debt, hs, ht]
  have hk : midH (60 * h1 + m1) (60 * h2 + m2) * 60 + midM (60 * h1 + m1) (60 * h2 + m2) < 1440 := by
    have := midH_lt (60 * h1 + m1) (60 * h2 + m2)
    have := midM_lt (60 * h1 + m1) (60 * h2 + m2)
    omega
  have hmp : parseHHMM (fmtHHMM (midH (60 * h1 + m1) (60 * h2 + m2) * 60 +
      midM (60 * h1 + m1) (60 * h2 + m2))) =
      some (midH (60 * h1 + m1) (60 * h2 + m2), midM (60 * h1 + m1) (60 * h2 + m2)) := by
    rw [parseHHMM_fmtHHMM _ hk]
    have hH := midH_lt (60 * h1 + m1) (60 * h2 + m2)
    have hM := midM_lt (60 * h1 + m1) (60 * h2 + m2)
    have e1 : (midH (60 * h1 + m1) (60 * h2 + m2) * 60 + midM (60 * h1 + m1) (60 * h2 + m2)) / 60 =
        midH (60 * h1 + m1) (60 * h2 + m2) := by omega
    have e2 : (midH (60 * h1 + m1) (60 * h2 + m2) * 60 + midM (60 * h1 + m1) (60 * h2 + m2)) % 60 =
        midM (60 * h1 + m1) (60 * h2 + m2) := by omega
    rw [e1, e2]
  have hsome : (calculate_circadian_rhythm st wt (en : ℚ)).isSome = true := by
    simp [calculate_circadian_rhythm, hs, ht]
  cases hr : calculate_circadian_rhythm st wt (en : ℚ) with
  | none =>
    rw [hr] at hsome
    exact absurd hsome (by simp)
  | some r =>
    refine ⟨_, r, hcalc, rfl, ?_⟩
    have hrr := hr
    simp only [calculate_circadian_rhythm, hs, ht, Option.some.injEq] at hrr
    subst hrr
    simp only [analyze_sleep_logs, List.isEmpty_cons, if_false, Bool.false_eq_true,
      List.mapM_cons, List.mapM_nil, hcalc, hr, hmp, Option.some_bind, Option.pure_def,
      List.length_cons, List.length_nil, Option.some.injEq]
    simp [hmp, midpointHour, pyRound2_idem, pyRound1_intCast]

/-! ### Claim C4 -/

/-- C4: `analyze_sleep_logs` of the empty log list is exactly
`(0, "N/A", 0)`, and of a one-element list is exactly that entry's own
sleep debt, chronotype and reported energy level. -/
theorem analyze_spec_C4 :
    analyze_sleep_logs [] = some (0, "N/A", 0) ∧
    (∀ st wt (en stl act : ℤ) h1 m1 h2 m2,
      parseHHMM st = some (h1, m1) → parseHHMM wt = some (h2, m2) →
      ∃ d r, calculate_sleep_debt st wt = some d ∧
        calculate_circadian_rhythm st wt (en : ℚ) = some r ∧
        analyze_sleep_logs [(st, wt, en, stl, act)] = some (d, r.chronotype, (en : ℚ))) := by
  constructor
  · rfl
  · intro st wt en stl act h1 m1 h2 m2 hs ht
    exact analyze_single st wt en stl act h1 m1 h2 m2 hs ht

/-- C4 witness: a single log `("23:00", "06:30", 7, 4, 30)`. -/
theorem analyze_spec_C4_witness :
    ∃ d r, calculate_sleep_debt "23:00" "06:30" = some d ∧
      calculate_circadian_rhythm "23:00" "06:30" ((7 : ℤ) : ℚ) = some r ∧
      analyze_sleep_logs [("23:00", "06:30", (7 : ℤ), (4 : ℤ), (30 : ℤ))] =
        some (d, r.chronotype, ((7 : ℤ) : ℚ)) :=
  analyze_spec_C4.2 "23:00" "06:30" 7 4 30 23 0 6 30 (by decide) (by decide)

-- scratch: spline homogeneity chain
theorem tail_map_q (f : ℚ → ℚ) (l : List ℚ) : (l.map f).tail = l.tail.map f := by
  cases l <;> rfl

theorem windows3_map (f : ℚ → ℚ) (l : List ℚ) :
    windows3 (l.map f) = (windows3 l).map (fun w => (f w.1, f w.2.1, f w.2.2)) := by
  unfold windows3
  rw [tail_map_q, tail_map_q, List.zip_map, List.zip_map]
  apply List.map_congr_left
  intro w _
  obtain ⟨x, y, z⟩ := w
  rfl

theorem interiorRows_scale (xs ys : List ℚ) (c : ℚ) :
    interiorRows xs (ys.map (fun y => y * c)) =
      (interiorRows xs ys).map (fun rd => (rd.1, rd.2 * c)) := by
  unfold interiorRows
  rw [windows3_map, List.zip_map_right, List.map_map, List.map_map]
  apply List.map_congr_left
  intro w _
  obtain ⟨⟨x0, x1, x2⟩, ⟨y0, y1, y2⟩⟩ := w
  simp only [Function.comp, Prod.map, id, splineRow]
  rw [Prod.ext_iff]
  constructor
  · rfl
  · show (y2 * c - y1 * c) / (x2 - x1) - (y1 * c - y0 * c) / (x1 - x0) =
      ((y2 - y1) / (x2 - x1) - (y1 - y0) / (x1 - x0)) * c
    ring

theorem adjustFirst_scale (r0 c : ℚ) (rows : List ((ℚ × ℚ × ℚ) × ℚ)) :
    adjustFirst r0 (rows.map (fun rd => (rd.1, rd.2 * c))) =
      (adjustFirst r0 rows).map (fun rd => (rd.1, rd.2 * c)) := by
  cases rows with
  | nil => rfl
  | cons r rest =>
    obtain ⟨⟨a, b, cc⟩, d⟩ := r
    rfl

theorem adjustLast_scale (r1 c : ℚ) (rows : List ((ℚ × ℚ × ℚ) × ℚ)) :
    adjustLast r1 (rows.map (fun rd => (rd.1, rd.2 * c))) =
      (adjustLast r1 rows).map (fun rd => (rd.1, rd.2 * c)) := by
  induction rows with
  | nil => rfl
  | cons r rest ih =>
    obtain ⟨⟨a, b, cc⟩, d⟩ := r
    cases rest with
    | nil => rfl
    | cons r2 rest2 =>
      simp only [List.map_cons, adjustLast]
      have hfold : ((r2.1, r2.2 * c) : (ℚ × ℚ × ℚ) × ℚ) ::
          List.map (fun rd => (rd.1, rd.2 * c)) rest2 =
          List.map (fun rd => (rd.1, rd.2 * c)) (r2 :: rest2) := rfl
      rw [hfold, ih]

theorem thomasFwd_scale (c : ℚ) (rows : List ((ℚ × ℚ × ℚ) × ℚ)) :
    ∀ cp dp, thomasFwd cp (dp * c) (rows.map (fun rd => (rd.1, rd.2 * c))) =
      (thomasFwd cp dp rows).map (fun p => (p.1, p.2 * c)) := by
  induction rows with
  | nil => intro cp dp; rfl
  | cons r rest ih =>
    intro cp dp
    obtain ⟨⟨a, b, cc⟩, d⟩ := r
    simp only [List.map_cons, thomasFwd]
    have hd : (d * c - a * (dp * c)) / (b - a * cp) = (d - a * dp) / (b - a * cp) * c := by
      ring
    rw [hd, ih]

theorem thomasBackRev_scale (c : ℚ) (l : List (ℚ × ℚ)) :
    ∀ xn, thomasBackRev (xn * c) (l.map (fun p => (p.1, p.2 * c))) =
      (thomasBackRev xn l).map (fun x => x * c) := by
  induction l with
  | nil => intro xn; rfl
  | cons p rest ih =>
    intro xn
    obtain ⟨cp, dp⟩ := p
    simp only [List.map_cons, thomasBackRev]
    have hx : dp * c - cp * (xn * c) = (dp - cp * xn) * c := by ring
    rw [hx, ih]

theorem triSolve_scale (c : ℚ) (rows : List ((ℚ × ℚ × ℚ) × ℚ)) :
    triSolve (rows.map (fun rd => (rd.1, rd.2 * c))) = (triSolve rows).map (fun x => x * c) := by
  unfold triSolve
  have h1 := thomasFwd_scale c rows 0 0
  rw [zero_mul] at h1
  rw [h1, ← List.map_reverse]
  have h2 := thomasBackRev_scale c ((thomasFwd 0 0 rows).reverse) 0
  rw [zero_mul] at h2
  rw [h2, List.map_reverse]

theorem notAKnotM_scale (xs ys : List ℚ) (c : ℚ) :
    notAKnotM xs (ys.map (fun y => y * c)) = (notAKnotM xs ys).map (fun m => m * c) := by
  have hrows : adjustLast (ratioLast xs) (adjustFirst (ratioFirst xs)
      (interiorRows xs (ys.map (fun y => y * c)))) =
      (adjustLast (ratioLast xs) (adjustFirst (ratioFirst xs) (interiorRows xs ys))).map
        (fun rd => (rd.1, rd.2 * c)) := by
    rw [interiorRows_scale, adjustFirst_scale, adjustLast_scale]
  simp only [notAKnotM]
  rw [hrows, triSolve_scale]
  have hm0 : (match (triSolve (adjustLast (ratioLast xs) (adjustFirst (ratioFirst xs)
      (interiorRows xs ys)))).map (fun x => x * c) with
      | m1 :: m2 :: _ => (1 + ratioFirst xs) * m1 - ratioFirst xs * m2
      | _ => 0) =
      (match triSolve (adjustLast (ratioLast xs) (adjustFirst (ratioFirst xs)
        (interiorRows xs ys))) with
      | m1 :: m2 :: _ => (1 + ratioFirst xs) * m1 - ratioFirst xs * m2
      | _ => 0) * c := by
    cases triSolve (adjustLast (ratioLast xs) (adjustFirst (ratioFirst xs)
        (interiorRows xs ys))) with
    | nil => simp
    | cons m1 rest =>
      cases rest with
      | nil => simp
      | cons m2 rest2 =>
        simp only [List.map_cons]
        ring
  have hmN : (match ((triSolve (adjustLast (ratioLast xs) (adjustFirst (ratioFirst xs)
      (interiorRows xs ys)))).map (fun x => x * c)).reverse with
      | mk :: mk1 :: _ => (1 + ratioLast xs) * mk - ratioLast xs * mk1
      | _ => 0) =
      (match (triSolve (adjustLast (ratioLast xs) (adjustFirst (ratioFirst xs)
        (interiorRows xs ys)))).reverse with
      | mk :: mk1 :: _ => (1 + ratioLast xs) * mk - ratioLast xs * mk1
      | _ => 0) * c := by
    rw [← List.map_reverse]
    cases (triSolve (adjustLast (ratioLast xs) (adjustFirst (ratioFirst xs)
        (interiorRows xs ys)))).reverse with
    | nil => simp
    | cons m1 rest =>
      cases rest with
      | nil => simp
      | cons m2 rest2 =>
        simp only [List.map_cons]
        ring
  rw [hm0, hmN]
  simp only [List.map_cons, List.map_append, List.map_cons, List.map_nil]

-- scratch: homogeneity part 2
theorem zip3Q_scale (xs ys ms : List ℚ) (c : ℚ) :
    zip3Q xs (ys.map (fun y => y * c)) (ms.map (fun m => m * c)) =
      (zip3Q xs ys ms).map (fun p => (p.1, p.2.1 * c, p.2.2 * c)) := by
  unfold zip3Q
  rw [List.zip_map, List.zip_map_right]
  apply List.map_congr_left
  intro p _
  obtain ⟨x, y, m⟩ := p
  rfl

theorem evalSpline_scale (c : ℚ) (pts : List (ℚ × ℚ × ℚ)) :
    ∀ t, evalSpline (pts.map (fun p => (p.1, p.2.1 * c, p.2.2 * c))) t =
      evalSpline pts t * c := by
  induction pts with
  | nil => intro t; simp [evalSpline]
  | cons p tl ih =>
    intro t
    obtain ⟨x0, y0, m0⟩ := p
    cases tl with
    | nil => simp [evalSpline]
    | cons p1 rest =>
      obtain ⟨x1, y1, m1⟩ := p1
      simp only [List.map_cons, evalSpline]
      by_cases hcond : t ≤ x1 ∨ rest = []
      · have hcond2 : t ≤ x1 ∨ List.map (fun p => (p.1, p.2.1 * c, p.2.2 * c)) rest = [] := by
          rcases hcond with h | h
          · exact Or.inl h
          · exact Or.inr (by rw [h]; rfl)
        rw [if_pos hcond, if_pos hcond2]
        ring
      · have hcond2 : ¬ (t ≤ x1 ∨ List.map (fun p => (p.1, p.2.1 * c, p.2.2 * c)) rest = []) := by
          intro h
          rcases h with h | h
          · exact hcond (Or.inl h)
          · exact hcond (Or.inr (List.map_eq_nil_iff.mp h))
        rw [if_neg hcond, if_neg hcond2]
        exact ih t
  
theorem maxD_nonneg (l : List ℚ) : 0 ≤ maxD l := by
  induction l with
  | nil => simp [maxD]
  | cons a tl ih =>
    simp only [maxD, List.foldr_cons] at *
    exact le_trans ih (le_max_right a _)

theorem le_maxD_of_mem (a : ℚ) (l : List ℚ) (h : a ∈ l) : a ≤ maxD l := by
  induction l with
  | nil => exact absurd h (List.not_mem_nil a)
  | cons b tl ih =>
    simp only [maxD, List.foldr_cons]
    rcases List.mem_cons.mp h with rfl | h2
    · exact le_max_left _ _
    · exact le_trans (ih h2) (le_max_right _ _)

theorem maxD_le (l : List ℚ) (b : ℚ) (hb : 0 ≤ b) (h : ∀ a ∈ l, a ≤ b) : maxD l ≤ b := by
  induction l with
  | nil => simpa [maxD]
  | cons a tl ih =>
    simp only [maxD, List.foldr_cons]
    apply max_le
    · exact h a (List.mem_cons_self a tl)
    · exact ih (fun x hx => h x (List.mem_cons_of_mem a hx))

theorem clip_monotone : Monotone clip := by
  unfold clip
  exact (monotone_id.max monotone_const).min monotone_const

theorem maxD_map_clip (l : List ℚ) : maxD (l.map clip) = clip (maxD l) := by
  induction l with
  | nil => simp [maxD, clip]
  | cons a tl ih =>
    simp only [maxD, List.map_cons, List.foldr_cons] at *
    rw [ih]
    rw [← Monotone.map_max clip_monotone]

theorem maxD_map_scale (l : List ℚ) (c : ℚ) (hc : 0 ≤ c) :
    maxD (l.map (fun x => x * c)) = maxD l * c := by
  induction l with
  | nil => simp [maxD]
  | cons a tl ih =>
    simp only [maxD, List.map_cons, List.foldr_cons] at *
    rw [ih, max_mul_of_nonneg _ _ hc]

-- scratch: base-curve decomposition
/-- The unscaled energy values at the unique hours (the `energy = 10`
normalisation of `unique_energy`). -/
def baseEnergyAt (s w : ℕ) : List ℚ :=
  ((unique_hours s w).filter (fun h => decide (h ∈ key_hours s w))).map
    (fun h => base_energy.getD (idxOf h (key_hours s w)) 0)

/-- The spline evaluation triples for the unscaled energy values. -/
def basePts (s w : ℕ) : List (ℚ × ℚ × ℚ) :=
  zip3Q (unique_hours s w) (baseEnergyAt s w) (notAKnotM (unique_hours s w) (baseEnergyAt s w))

/-- The 100 pre-clip samples of the unscaled base spline. -/
def baseSamples (s w : ℕ) : List ℚ :=
  linspace100.map (fun t => evalSpline (basePts s w) t)

theorem getD_map_mul (l : List ℚ) (i : ℕ) (c : ℚ) :
    (l.map (fun x => x * c)).getD i 0 = l.getD i 0 * c := by
  induction l generalizing i with
  | nil => simp
  | cons a tl ih =>
    cases i with
    | zero => simp
    | succ j => simpa using ih j

theorem unique_energy_eq_scale (s w : ℕ) (e : ℚ) :
    unique_energy s w e = (baseEnergyAt s w).map (fun y => y * (e / 10)) := by
  unfold unique_energy baseEnergyAt
  rw [List.map_map]
  apply List.map_congr_left
  intro a _
  simp only [Function.comp]
  exact getD_map_mul base_energy (idxOf a (key_hours s w)) (e / 10)

set_option maxHeartbeats 1000000 in
theorem rhythm_energy_eq (s t : String) (h1 m1 h2 m2 : ℕ) (e : ℚ) (r : Rhythm)
    (hs : parseHHMM s = some (h1, m1)) (ht : parseHHMM t = some (h2, m2))
    (hr : calculate_circadian_rhythm s t e = some r) :
    r.energy = (baseSamples (60 * h1 + m1) (60 * h2 + m2)).map
      (fun v => clip (v * (e / 10))) := by
  simp only [calculate_circadian_rhythm, hs, ht, Option.some.injEq] at hr
  have henergy : r.energy = linspace100.map (fun x => clip (evalSpline
      (zip3Q (unique_hours (60 * h1 + m1) (60 * h2 + m2))
        (unique_energy (60 * h1 + m1) (60 * h2 + m2) e)
        (notAKnotM (unique_hours (60 * h1 + m1) (60 * h2 + m2))
          (unique_energy (60 * h1 + m1) (60 * h2 + m2) e))) x)) := by
    rw [← hr]
  rw [henergy]
  unfold baseSamples
  rw [List.map_map]
  apply List.map_congr_left
  intro x _
  simp only [Function.comp]
  rw [unique_energy_eq_scale]
  rw [notAKnotM_scale]
  rw [zip3Q_scale]
  rw [evalSpline_scale]
  rfl

theorem maxD_rhythm_energy (s t : String) (h1 m1 h2 m2 : ℕ) (e : ℚ) (r : Rhythm)
    (he : 0 ≤ e)
    (hs : parseHHMM s = some (h1, m1)) (ht : parseHHMM t = some (h2, m2))
    (hr : calculate_circadian_rhythm s t e = some r) :
    maxD r.energy = clip (maxD (baseSamples (60 * h1 + m1) (60 * h2 + m2)) * (e / 10)) := by
  rw [rhythm_energy_eq s t h1 m1 h2 m2 e r hs ht hr]
  have hmc : (fun v => clip (v * (e / 10))) = clip ∘ (fun v => v * (e / 10)) := rfl
  rw [hmc, ← List.map_map, maxD_map_clip, maxD_map_scale _ _ (by positivity)]

-- scratch: base max lower bound and clip facts
theorem qmod24_nonneg (x : ℚ) : 0 ≤ qmod24 x := by
  unfold qmod24
  have h := Int.floor_le (x / 24)
  have h24 : (24 : ℚ) * ⌊x / 24⌋ ≤ 24 * (x / 24) := by
    apply mul_le_mul_of_nonneg_left h
    norm_num
  have hx : (24 : ℚ) * (x / 24) = x := by ring
  linarith

theorem key_hours_nonneg (s w : ℕ) : ∀ a ∈ key_hours s w, 0 ≤ a := by
  intro a ha
  simp only [key_hours, List.mem_cons, List.not_mem_nil, or_false] at ha
  rcases ha with rfl | rfl | rfl | rfl | rfl | rfl | rfl
  · norm_num
  · exact wakeHourVal_nonneg s w
  · exact qmod24_nonneg _
  · exact qmod24_nonneg _
  · exact qmod24_nonneg _
  · exact qmod24_nonneg _
  · norm_num

theorem head_eq_of_sorted (a b : ℚ) (l : List ℚ) (hch : List.Chain' (· < ·) (a :: l))
    (hmem : b ∈ a :: l) (hle : ∀ x ∈ a :: l, b ≤ x) : a = b := by
  rcases List.mem_cons.mp hmem with rfl | hbl
  · rfl
  · obtain ⟨hhead, _⟩ := List.pairwise_cons.mp (List.chain'_iff_pairwise.mp hch)
    have hab : a < b := hhead b hbl
    have hba : b ≤ a := hle a (List.mem_cons_self a l)
    linarith

theorem unique_hours_head (s w : ℕ) :
    ∃ u1 tl, unique_hours s w = 0 :: u1 :: tl ∧ 0 < u1 := by
  have hlen := length_unique_hours_ge s w
  match hu : unique_hours s w with
  | [] => rw [hu] at hlen; simp at hlen
  | [u0] => rw [hu] at hlen; simp at hlen
  | u0 :: u1 :: tl =>
    have hch : List.Chain' (· < ·) (u0 :: u1 :: tl) := by
      rw [← hu]
      exact sortedDedup_chain' _
    have hmem : (0 : ℚ) ∈ u0 :: u1 :: tl := by
      rw [← hu]
      exact (mem_sortedDedup 0 _).mpr (by simp [key_hours])
    have hle : ∀ x ∈ u0 :: u1 :: tl, (0 : ℚ) ≤ x := by
      intro x hx
      rw [← hu] at hx
      exact key_hours_nonneg s w x ((mem_sortedDedup x _).mp hx)
    have h0 : u0 = 0 := head_eq_of_sorted u0 0 (u1 :: tl) hch hmem hle
    subst h0
    refine ⟨u1, tl, rfl, ?_⟩
    exact (List.chain'_cons.mp hch).1

theorem baseEnergyAt_eq (s w : ℕ) :
    baseEnergyAt s w = (unique_hours s w).map
      (fun h => base_energy.getD (idxOf h (key_hours s w)) 0) := by
  unfold baseEnergyAt
  have hfil : (unique_hours s w).filter (fun h => decide (h ∈ key_hours s w)) =
      unique_hours s w := by
    apply List.filter_eq_self.mpr
    intro a ha
    simp only [decide_eq_true_eq]
    exact (mem_sortedDedup a _).mp ha
  rw [hfil]

theorem notAKnotM_shape (xs ys : List ℚ) :
    ∃ m0 m1 tl, notAKnotM xs ys = m0 :: m1 :: tl := by
  simp only [notAKnotM]
  cases htr : triSolve (adjustLast (ratioLast xs)
      (adjustFirst (ratioFirst xs) (interiorRows xs ys))) with
  | nil => exact ⟨_, _, _, rfl⟩
  | cons i itl => exact ⟨_, _, _, rfl⟩

theorem evalSpline_at_left (x0 y0 m0 x1 y1 m1 : ℚ) (rest : List (ℚ × ℚ × ℚ))
    (h : x0 < x1) : evalSpline ((x0, y0, m0) :: (x1, y1, m1) :: rest) x0 = y0 := by
  unfold evalSpline
  rw [if_pos (Or.inl (le_of_lt h))]
  have hne : x1 - x0 ≠ 0 := sub_ne_zero.mpr (ne_of_gt h)
  field_simp
  ring

theorem zero_mem_linspace : (0 : ℚ) ∈ linspace100 := by
  unfold linspace100
  apply List.mem_map.mpr
  exact ⟨0, by decide, by norm_num⟩

theorem baseSamples_ge_two (s w : ℕ) : 2 ≤ maxD (baseSamples s w) := by
  obtain ⟨u1, tl, hu, hu1⟩ := unique_hours_head s w
  obtain ⟨m0, m1, mtl, hm⟩ := notAKnotM_shape (unique_hours s w) (baseEnergyAt s w)
  have hpick0 : base_energy.getD (idxOf (0 : ℚ) (key_hours s w)) 0 = 2 := by
    simp [key_hours, idxOf, base_energy]
  have hbe : baseEnergyAt s w = 2 ::
      (base_energy.getD (idxOf u1 (key_hours s w)) 0) ::
      tl.map (fun h => base_energy.getD (idxOf h (key_hours s w)) 0) := by
    rw [baseEnergyAt_eq, hu]
    simp only [List.map_cons]
    rw [hpick0]
  have hpts : basePts s w = (0, 2, m0) ::
      (u1, base_energy.getD (idxOf u1 (key_hours s w)) 0, m1) ::
      zip3Q tl (tl.map (fun h => base_energy.getD (idxOf h (key_hours s w)) 0)) mtl := by
    unfold basePts
    rw [hm, hu, hbe]
    rfl
  have heval : evalSpline (basePts s w) 0 = 2 := by
    rw [hpts]
    exact evalSpline_at_left 0 2 m0 u1 _ m1 _ hu1
  have hmem : (2 : ℚ) ∈ baseSamples s w := by
    unfold baseSamples
    refine List.mem_map.mpr ⟨0, zero_mem_linspace, heval⟩
  exact le_maxD_of_mem 2 _ hmem

theorem clip_le_ten (x : ℚ) : clip x ≤ 10 := min_le_right _ _

theorem clip_eq_ten (x : ℚ) (h : 10 ≤ x) : clip x = 10 := by
  unfold clip
  rw [max_eq_left (by linarith), min_eq_right h]

theorem clip_eq_self (x : ℚ) (h0 : 0 ≤ x) (h10 : x ≤ 10) : clip x = x := by
  unfold clip
  rw [max_eq_left h0, min_eq_left h10]

-- scratch: C6 claim theorems
/-- C6 (amended): for a fixed valid sleep/wake pair, increasing the
energy report never decreases the maximum of the 100-sample energy
curve, and strictly increases it except when the upper clamp holds both
maxima at 10; the 10-versus-5 strict inequality of the original claim
fails exactly in that clamped case (see the counterexample). -/
theorem energy_scaling_spec_C6 :
    ∀ s t h1 m1 h2 m2 (e1 e2 : ℚ), parseHHMM s = some (h1, m1) → parseHHMM t = some (h2, m2) →
      0 < e1 → e1 ≤ e2 →
      ∃ M1 M2, (calculate_circadian_rhythm s t e1).map (fun r => maxD r.energy) = some M1 ∧
        (calculate_circadian_rhythm s t e2).map (fun r => maxD r.energy) = some M2 ∧
        M1 ≤ M2 ∧ (e1 < e2 → M1 < M2 ∨ (M1 = 10 ∧ M2 = 10)) := by
  intro s t h1 m1 h2 m2 e1 e2 hs ht he1 he12
  have hsome1 : (calculate_circadian_rhythm s t e1).isSome = true := by
    simp [calculate_circadian_rhythm, hs, ht]
  have hsome2 : (calculate_circadian_rhythm s t e2).isSome = true := by
    simp [calculate_circadian_rhythm, hs, ht]
  cases hr1 : calculate_circadian_rhythm s t e1 with
  | none => rw [hr1] at hsome1; exact absurd hsome1 (by simp)
  | some r1 =>
  cases hr2 : calculate_circadian_rhythm s t e2 with
  | none => rw [hr2] at hsome2; exact absurd hsome2 (by simp)
  | some r2 =>
  have hM1 := maxD_rhythm_energy s t h1 m1 h2 m2 e1 r1 (le_of_lt he1) hs ht hr1
  have hM2 := maxD_rhythm_energy s t h1 m1 h2 m2 e2 r2 (by linarith) hs ht hr2
  have hB := baseSamples_ge_two (60 * h1 + m1) (60 * h2 + m2)
  set B := maxD (baseSamples (60 * h1 + m1) (60 * h2 + m2)) with hBdef
  have hBpos : 0 < B := by linarith
  have hle : B * (e1 / 10) ≤ B * (e2 / 10) := by
    apply mul_le_mul_of_nonneg_left _ (le_of_lt hBpos)
    linarith
  refine ⟨maxD r1.energy, maxD r2.energy, rfl, rfl, ?_, ?_⟩
  · rw [hM1, hM2]
    exact clip_monotone hle
  · intro hlt
    have hstrict : B * (e1 / 10) < B * (e2 / 10) := by
      apply mul_lt_mul_of_pos_left _ hBpos
      linarith
    by_cases hcl : 10 ≤ B * (e1 / 10)
    · right
      rw [hM1, hM2]
      constructor
      · exact clip_eq_ten _ hcl
      · exact clip_eq_ten _ (by linarith)
    · left
      rw [hM1, hM2]
      push_neg at hcl
      have hx1pos : 0 < B * (e1 / 10) := mul_pos hBpos (by linarith)
      have hx2pos : 0 < B * (e2 / 10) := lt_of_lt_of_le hx1pos hle
      rw [clip_eq_self _ (le_of_lt hx1pos) (le_of_lt hcl)]
      unfold clip
      rw [max_eq_left (le_of_lt hx2pos)]
      exact lt_min hstrict hcl

set_option maxRecDepth 40000 in
attribute [local semireducible] Rat.mul Rat.add Rat.sub Rat.inv in
theorem sample_big : (20 : ℚ) ≤ evalSpline (basePts 900 780) (80 / 33) := by decide

set_option maxRecDepth 4000 in
theorem sample_mem : (80 / 33 : ℚ) ∈ linspace100 := by
  unfold linspace100
  apply List.mem_map.mpr
  exact ⟨10, by decide, by norm_num⟩

theorem counterexample_max (e : ℚ) (r : Rhythm)
    (hr : calculate_circadian_rhythm "15:00" "13:00" e = some r)
    (hbig : 10 ≤ evalSpline (basePts 900 780) (80 / 33) * (e / 10)) :
    maxD r.energy = 10 := by
  have hs : parseHHMM "15:00" = some (15, 0) := by decide
  have ht : parseHHMM "13:00" = some (13, 0) := by decide
  have henergy := rhythm_energy_eq "15:00" "13:00" 15 0 13 0 e r hs ht hr
  have h900 : 60 * 15 + 0 = 900 := by norm_num
  have h780 : 60 * 13 + 0 = 780 := by norm_num
  rw [h900, h780] at henergy
  apply le_antisymm
  · rw [henergy]
    apply maxD_le _ _ (by norm_num)
    intro a ha
    obtain ⟨v, _, hv⟩ := List.mem_map.mp ha
    rw [← hv]
    exact clip_le_ten _
  · have hmem : (10 : ℚ) ∈ r.energy := by
      rw [henergy]
      apply List.mem_map.mpr
      refine ⟨evalSpline (basePts 900 780) (80 / 33), ?_, ?_⟩
      · unfold baseSamples
        apply List.mem_map.mpr
        exact ⟨80 / 33, sample_mem, rfl⟩
      · exact clip_eq_ten _ hbig
    exact le_maxD_of_mem _ _ hmem

/-- C6 witness at `("22:00", "06:00")` with reports 5 and 10. -/
theorem energy_scaling_spec_C6_witness :
    ∃ M1 M2, (calculate_circadian_rhythm "22:00" "06:00" 5).map (fun r => maxD r.energy) = some M1 ∧
      (calculate_circadian_rhythm "22:00" "06:00" 10).map (fun r => maxD r.energy) = some M2 ∧
      M1 ≤ M2 ∧ ((5 : ℚ) < 10 → M1 < M2 ∨ (M1 = 10 ∧ M2 = 10)) :=
  energy_scaling_spec_C6 "22:00" "06:00" 22 0 6 0 5 10 (by decide) (by decide)
    (by norm_num) (by norm_num)

/-- C6 counterexample: at sleep 15:00, wake 13:00 the spline overshoots
past 20, so the clamp pins the curve maximum at 10 for energy reports 5
and 10 alike — the claimed strict inequality `max(10) > max(5)` fails. -/
theorem energy_scaling_spec_C6_counterexample :
    (calculate_circadian_rhythm "15:00" "13:00" 10).map (fun r => maxD r.energy) = some 10 ∧
    (calculate_circadian_rhythm "15:00" "13:00" 5).map (fun r => maxD r.energy) = some 10 := by
  have hs : parseHHMM "15:00" = some (15, 0) := by decide
  have ht : parseHHMM "13:00" = some (13, 0) := by decide
  constructor
  · have hsome : (calculate_circadian_rhythm "15:00" "13:00" (10 : ℚ)).isSome = true := by
      simp [calculate_circadian_rhythm, hs, ht]
    cases hr : calculate_circadian_rhythm "15:00" "13:00" (10 : ℚ) with
    | none => rw [hr] at hsome; exact absurd hsome (by simp)
    | some r =>
      simp only [Option.map_some', Option.some.injEq]
      apply counterexample_max 10 r hr
      have := sample_big
      have h1 : (10 : ℚ) / 10 = 1 := by norm_num
      rw [h1, mul_one]
      linarith
  · have hsome : (calculate_circadian_rhythm "15:00" "13:00" (5 : ℚ)).isSome = true := by
      simp [calculate_circadian_rhythm, hs, ht]
    cases hr : calculate_circadian_rhythm "15:00" "13:00" (5 : ℚ) with
    | none => rw [hr] at hsome; exact absurd hsome (by simp)
    | some r =>
      simp only [Option.map_some', Option.some.injEq]
      apply counterexample_max 5 r hr
      have := sample_big
      have h1 : evalSpline (basePts 900 780) (80 / 33) * (5 / 10) =
          evalSpline (basePts 900 780) (80 / 33) / 2 := by ring
      rw [h1]
      linarith
